import Mathlib

/-!
# Verification of the tts-server-web plugin execution subsystem

A shallow embedding, in Lean 4, of the parts of the plugin execution
subsystem (`api/plugins/`) that the specification's testable properties
talk about:

* the host-side base64 codec (`api/plugins/runtime/crypto.py`),
* signed-byte normalization (`PluginEngine._convert_js_bytes`),
* the symmetric crypto pad / CBC pipeline (`SymmetricCrypto`),
* the sandboxed filesystem path resolution (`api/plugins/runtime/filesystem.py`),
* audio format sniffing and WAV sample-rate extraction (`api/plugins/runtime/audio.py`),
* the Rhino source-compatibility transformer (`api/plugins/compat/rhino.py`),
* the engine lifecycle (`PluginEngine.load` / `get_audio`) and the
  plugin registry (`PluginManager.register`).

Byte strings are modelled as `List Nat` with every element `< 256`;
Python text strings appearing as byte-oriented data (base64 text) are
modelled as lists of character codes.  Fallible Python code (raising
exceptions) is modelled with `Option` / `Except`.
-/

namespace TtsPlugins

/-! ## Base64 codec (`crypto.py`: `base64Encode` / `base64Decode`)

`base64Encode` is `base64.b64encode(data).decode('ascii')` and
`base64Decode` is `base64.b64decode(data)`: standard RFC 4648 base64
with `=` padding.  We model the encoded text as the list of its ASCII
codes (`=` is 61).  `base64Decode` returns `none` where `b64decode`
raises `binascii.Error` (invalid characters or padding). -/

/-- The base64 alphabet: sextet value (0..63) to ASCII code.
`A`..`Z` are 65..90, `a`..`z` are 97..122, `0`..`9` are 48..57,
`+` is 43 and `/` is 47. -/
def b64Char (v : Nat) : Nat :=
  if v < 26 then 65 + v
  else if v < 52 then 97 + (v - 26)
  else if v < 62 then 48 + (v - 52)
  else if v = 62 then 43
  else 47

/-- Inverse alphabet lookup: ASCII code to sextet value, `none` for
characters outside the base64 alphabet (including the pad `=`). -/
def b64Val (c : Nat) : Option Nat :=
  if 65 ≤ c ∧ c ≤ 90 then some (c - 65)
  else if 97 ≤ c ∧ c ≤ 122 then some (c - 97 + 26)
  else if 48 ≤ c ∧ c ≤ 57 then some (c - 48 + 52)
  else if c = 43 then some 62
  else if c = 47 then some 63
  else none

/-- `base64Encode` from `crypto.py` on the bytes path:
`base64.b64encode`.  Groups of three bytes become four alphabet
characters; a trailing group of two bytes becomes three characters and
one `=`; a single byte becomes two characters and `==`. -/
def base64Encode : List Nat → List Nat
  | a :: b :: c :: rest =>
      b64Char (a / 4) :: b64Char (a % 4 * 16 + b / 16) ::
      b64Char (b % 16 * 4 + c / 64) :: b64Char (c % 64) :: base64Encode rest
  | [a, b] => [b64Char (a / 4), b64Char (a % 4 * 16 + b / 16), b64Char (b % 16 * 4), 61]
  | [a] => [b64Char (a / 4), b64Char (a % 4 * 16), 61, 61]
  | [] => []

/-- `base64Decode` from `crypto.py`: `base64.b64decode`.  Processes
four characters at a time; `=` padding is only legal at the very end.
`none` models the `binascii.Error` raised on malformed input. -/
def base64Decode : List Nat → Option (List Nat)
  | [] => some []
  | c1 :: c2 :: c3 :: c4 :: rest =>
      match b64Val c1, b64Val c2 with
      | some v1, some v2 =>
        if c3 = 61 then
          if c4 = 61 ∧ rest = [] then some [v1 * 4 + v2 / 16] else none
        else
          match b64Val c3 with
          | some v3 =>
            if c4 = 61 then
              if rest = [] then some [v1 * 4 + v2 / 16, v2 % 16 * 16 + v3 / 4]
              else none
            else
              match b64Val c4, base64Decode rest with
              | some v4, some tail =>
                  some ((v1 * 4 + v2 / 16) :: (v2 % 16 * 16 + v3 / 4) ::
                        (v3 % 4 * 64 + v4) :: tail)
              | _, _ => none
          | none => none
      | _, _ => none
  | _ => none

/-! ## Signed-byte normalization (`engine.py`: `PluginEngine._convert_js_bytes`)

Guest numeric arrays may carry signed byte values; the host converts
each element `b` with `b & 0xFF` (after truncating floats) and packs the
results into `bytes`.  Guest numbers are modelled as `Int` (the float
truncation step is identity on integers). -/

/-- `PluginEngine._convert_js_bytes`: map each element through
`b & 0xFF` (Python's bitwise AND on arbitrary-precision integers, i.e.
two's-complement semantics), producing bytes in `0..255`. -/
def convert_js_bytes (js_bytes : List Int) : List Nat :=
  js_bytes.map fun b => (Int.land b 255).toNat

/-! ## Symmetric crypto (`crypto.py`: `SymmetricCrypto`)

`SymmetricCrypto.__init__` parses and validates the
`"ALGORITHM/MODE/PADDING"` transformation string (`ValueError` on
anything unsupported, modelled as `none`); `encrypt` is
PKCS7-pad-then-cipher, `decrypt` is cipher-then-PKCS7-unpad.  The block
cipher itself (`cryptography`'s AES/TripleDES) is external library
code; the CBC chaining, padding and validation around it are the
repository's logic, so the cipher appears as an explicit pair of
block functions `E`/`D` over 16-byte blocks. -/

/-- Python `str.split(sep)` for a single-character separator, keeping
empty segments (so `"".split('/') == ['']`).  Transformation strings
are modelled as `List Char`. -/
def splitOnChar (sep : Char) : List Char → List (List Char)
  | [] => [[]]
  | c :: rest =>
    let r := splitOnChar sep rest
    if c = sep then [] :: r
    else
      match r with
      | [] => [[c]]
      | h :: t => (c :: h) :: t

/-- Python `str.upper()` on ASCII transformation parts. -/
def upper (s : List Char) : List Char := s.map Char.toUpper

/-- The validated configuration produced by `SymmetricCrypto.__init__`:
uppercased algorithm/mode/padding names plus the block size from
`ALGORITHM_BLOCK_SIZES` (AES: 128 bits, DES: 64 bits). -/
structure CryptoSpec where
  algorithm : List Char
  mode : List Char
  padding : List Char
  blockSizeBits : Nat
deriving DecidableEq, Repr

/-- `SymmetricCrypto.__init__`: split the transformation on `/` into
exactly three parts, uppercase them, validate algorithm / mode /
padding, require an IV for CBC, and validate the key length (the AES
16/24/32 check is raised by `cryptography`'s `algorithms.AES`; the DES
8/16/24 check is the repository's own branch).  `none` models the
`ValueError` raised on any invalid input. -/
def symmetricCryptoInit (transformation : List Char) (keyLen : Nat) (ivPresent : Bool) :
    Option CryptoSpec :=
  match splitOnChar '/' transformation with
  | [a, m, p] =>
    let A := upper a
    let M := upper m
    let P := upper p
    if A ≠ "AES".toList ∧ A ≠ "DES".toList then none
    else if M ≠ "ECB".toList ∧ M ≠ "CBC".toList then none
    else if P ≠ "PKCS5PADDING".toList ∧ P ≠ "PKCS7PADDING".toList then none
    else if M = "CBC".toList ∧ ivPresent = false then none
    else if A = "AES".toList ∧ keyLen ≠ 16 ∧ keyLen ≠ 24 ∧ keyLen ≠ 32 then none
    else if A = "DES".toList ∧ keyLen ≠ 8 ∧ keyLen ≠ 16 ∧ keyLen ≠ 24 then none
    else some ⟨A, M, P, if A = "AES".toList then 128 else 64⟩
  | _ => none

/-- `SymmetricCrypto._pad` for the AES block size (128 bits = 16
bytes): PKCS7 appends `p` copies of the byte `p`, where
`p = 16 - len % 16` (a full block of `16`s when the length is already
a multiple of 16). -/
def pkcs7Pad16 (data : List Nat) : List Nat :=
  data ++ List.replicate (16 - data.length % 16) (16 - data.length % 16)

/-- `SymmetricCrypto._unpad` for the AES block size: the PKCS7
unpadder checks that the input is a non-empty multiple of the block
size, that the final byte `p` is in `1..16`, and that the last `p`
bytes all equal `p`; it strips them.  `none` models the `ValueError`
raised on invalid padding. -/
def pkcs7Unpad16 (data : List Nat) : Option (List Nat) :=
  if data.length % 16 = 0 ∧ 1 ≤ data.getLastD 0 ∧ data.getLastD 0 ≤ 16 ∧
      data.getLastD 0 ≤ data.length ∧
      (data.drop (data.length - data.getLastD 0)).all (· = data.getLastD 0) then
    some (data.take (data.length - data.getLastD 0))
  else none

/-- Bytewise XOR of two equal-length byte strings (the CBC chaining
step performed inside the library's CBC mode). -/
def zipXor (a b : List Nat) : List Nat := List.zipWith (fun x y => x ^^^ y) a b

/-- Split a byte string into consecutive 16-byte blocks (the block
iteration done by the library's cipher context; exact when the length
is a multiple of 16). -/
def chunk16 (bs : List Nat) : List (List Nat) :=
  if bs = [] then [] else bs.take 16 :: chunk16 (bs.drop 16)
termination_by bs.length
decreasing_by
  rename_i h
  have : 0 < bs.length := List.length_pos.mpr h
  simp only [List.length_drop]
  omega

/-- CBC encryption over a block list: each plaintext block is XORed
with the previous ciphertext block (initially the IV) and passed
through the block cipher `E`. -/
def cbcEncryptBlocks (E : List Nat → List Nat) (prev : List Nat) :
    List (List Nat) → List (List Nat)
  | [] => []
  | b :: bs => E (zipXor b prev) :: cbcEncryptBlocks E (E (zipXor b prev)) bs

/-- CBC decryption over a block list: each ciphertext block is passed
through the block decipher `D` and XORed with the previous ciphertext
block (initially the IV). -/
def cbcDecryptBlocks (D : List Nat → List Nat) (prev : List Nat) :
    List (List Nat) → List (List Nat)
  | [] => []
  | c :: cs => zipXor (D c) prev :: cbcDecryptBlocks D c cs

/-- `SymmetricCrypto.encrypt` in CBC mode with a 16-byte block:
`self._pad(data)` then the CBC-mode cipher. -/
def cryptoEncrypt (E : List Nat → List Nat) (iv data : List Nat) : List Nat :=
  (cbcEncryptBlocks E iv (chunk16 (pkcs7Pad16 data))).flatten

/-- `SymmetricCrypto.decrypt` in CBC mode with a 16-byte block: the
CBC-mode decipher then `self._unpad`. -/
def cryptoDecrypt (D : List Nat → List Nat) (iv data : List Nat) : Option (List Nat) :=
  pkcs7Unpad16 (cbcDecryptBlocks D iv (chunk16 data)).flatten

/-! ## Sandboxed filesystem (`filesystem.py`: `FileSystem`)

Paths are modelled lexically: a filesystem path is a list of
components (each a `List Char`), and `Path.resolve()` is the lexical
normalization of `.` and `..` against the base (symlinks are outside
the model).  `FileSystem._safe_path` raises `ValueError` (modelled as
`none`) whenever the resolved path is not under the base directory
(`relative_to` fails, i.e. the base is not a prefix of the
resolution). -/

/-- A filesystem path, split into components. -/
abbrev PathComps := List (List Char)

/-- Parse a path string: absolute iff it starts with `/`; components
are the non-empty segments between slashes. -/
def parsePath (s : List Char) : Bool × PathComps :=
  (s.head? = some '/', (splitOnChar '/' s).filter (fun c => decide (c ≠ [])))

/-- Lexical normalization: `.` is skipped, `..` pops one component
(staying put at the root, as POSIX resolution does), anything else is
pushed. -/
def resolveComps (start : PathComps) : PathComps → PathComps
  | [] => start
  | c :: rest =>
    if c = ".".toList then resolveComps start rest
    else if c = "..".toList then resolveComps start.dropLast rest
    else resolveComps (start ++ [c]) rest

/-- `(self._base_dir / path).resolve()`: an absolute `path` discards
the base (as `pathlib`'s `/` operator does); a relative one is
resolved on top of it. -/
def resolvePath (base : PathComps) (path : List Char) : PathComps :=
  let ap := parsePath path
  resolveComps (if ap.1 then [] else base) ap.2

/-- `FileSystem._safe_path`: resolve, then require
`target.relative_to(self._base_dir)` to succeed — i.e. the base must
be a prefix of the resolution.  `none` models the raised
`ValueError` (the security rejection); the accepted path is returned
unmodified, never clamped. -/
def safePath (base : PathComps) (path : List Char) : Option PathComps :=
  let t := resolvePath base path
  if base.isPrefixOf t then some t else none

/-- Errors surfaced by filesystem operations: `securityViolation` is
the `ValueError` from `_safe_path`; `notFound` is
`FileNotFoundError`; `ioError` is `IOError`/`OSError`. -/
inductive FsError where
  | securityViolation
  | notFound
  | ioError
deriving DecidableEq, Repr

/-- The observable filesystem: regular files (with contents) and
directories, each named by a resolved path. -/
structure FsState where
  files : List (PathComps × List Nat)
  dirs : List PathComps

/-- Does a regular file exist at `q`? -/
def FsState.isFilePath (st : FsState) (q : PathComps) : Bool :=
  st.files.any fun f => f.1 == q

/-- Does a directory exist at `q`? -/
def FsState.isDirPath (st : FsState) (q : PathComps) : Bool :=
  st.dirs.any fun d => d == q

/-- Does anything exist at `q`? -/
def FsState.existsPath (st : FsState) (q : PathComps) : Bool :=
  st.isFilePath q || st.isDirPath q

/-- The proper prefixes of a resolved path: the ancestor directories
that `mkdir(parents=True)` may need to create. -/
def properPrefixes (q : PathComps) : List PathComps :=
  (List.range q.length).map fun i => q.take i

/-- `FileSystem.exists`: `_safe_path` first; its `ValueError` and any
`OSError` from the `exists()` query (the `osErr` oracle) are caught
and turned into `False`. -/
def fsExists (osErr : Bool) (st : FsState) (base : PathComps) (p : List Char) : Bool :=
  match safePath base p with
  | none => false
  | some q => if osErr then false else st.existsPath q

/-- `FileSystem.isFile`: `_safe_path` first; `ValueError` and
`OSError` are caught and turned into `False`. -/
def fsIsFile (osErr : Bool) (st : FsState) (base : PathComps) (p : List Char) : Bool :=
  match safePath base p with
  | none => false
  | some q => if osErr then false else st.isFilePath q

/-- `FileSystem.isDirectory`: same shape as `isFile`. -/
def fsIsDirectory (osErr : Bool) (st : FsState) (base : PathComps) (p : List Char) : Bool :=
  match safePath base p with
  | none => false
  | some q => if osErr then false else st.isDirPath q

/-- `FileSystem.readBytes` (and `readText`, whose control flow is
identical up to text decoding): `_safe_path`, then existence and
file-ness checks, then the read. -/
def fsReadBytes (st : FsState) (base : PathComps) (p : List Char) :
    Except FsError (List Nat) :=
  match safePath base p with
  | none => .error .securityViolation
  | some q =>
    if st.existsPath q then
      if st.isFilePath q then
        match st.files.lookup q with
        | some content => .ok content
        | none => .error .ioError
      else .error .ioError
    else .error .notFound

/-- `FileSystem.writeBytes` (and `writeText`): `_safe_path`, then
create the parent directories and write the file. -/
def fsWriteBytes (st : FsState) (base : PathComps) (p : List Char) (content : List Nat) :
    Except FsError Bool × FsState :=
  match safePath base p with
  | none => (.error .securityViolation, st)
  | some q =>
      (.ok true,
       { files := (q, content) :: st.files.filter fun f => decide (f.1 ≠ q),
         dirs := st.dirs ++ (properPrefixes q).filter fun d =>
           decide (d ∉ st.dirs) && base.isPrefixOf d })

/-- `FileSystem.mkdir` (single level, `exist_ok=True`): a file in the
way is an `IOError`; a missing parent is an `OSError`. -/
def fsMkdir (st : FsState) (base : PathComps) (p : List Char) :
    Except FsError Bool × FsState :=
  match safePath base p with
  | none => (.error .securityViolation, st)
  | some q =>
    if st.isFilePath q then (.error .ioError, st)
    else if st.isDirPath q then (.ok true, st)
    else if st.isDirPath q.dropLast then (.ok true, { st with dirs := st.dirs ++ [q] })
    else (.error .ioError, st)

/-- `FileSystem.mkdirs` (`parents=True, exist_ok=True`): creates the
missing in-root ancestors as well (ancestors above the root already
exist — the constructor created the base directory). -/
def fsMkdirs (st : FsState) (base : PathComps) (p : List Char) :
    Except FsError Bool × FsState :=
  match safePath base p with
  | none => (.error .securityViolation, st)
  | some q =>
    if st.isFilePath q then (.error .ioError, st)
    else (.ok true,
      { st with dirs := st.dirs ++ (properPrefixes q ++ [q]).filter fun d =>
          decide (d ∉ st.dirs) && base.isPrefixOf d })

/-- `FileSystem.delete`: `_safe_path`, then `False` if nothing is
there, `unlink` for a file, recursive `shutil.rmtree` for a
directory. -/
def fsDelete (st : FsState) (base : PathComps) (p : List Char) :
    Except FsError Bool × FsState :=
  match safePath base p with
  | none => (.error .securityViolation, st)
  | some q =>
    if st.isFilePath q then
      (.ok true, { st with files := st.files.filter fun f => decide (f.1 ≠ q) })
    else if st.isDirPath q then
      (.ok true,
       { files := st.files.filter fun f => !(q.isPrefixOf f.1),
         dirs := st.dirs.filter fun d => !(q.isPrefixOf d) })
    else (.ok false, st)

/-- `FileSystem.copy`: both endpoints go through `_safe_path` before
any check or action; then source-exists and source-is-file checks,
then the copy (with parent creation at the destination elided into a
plain write). -/
def fsCopy (st : FsState) (base : PathComps) (src dst : List Char) :
    Except FsError Bool × FsState :=
  match safePath base src with
  | none => (.error .securityViolation, st)
  | some qs =>
    match safePath base dst with
    | none => (.error .securityViolation, st)
    | some qd =>
      if st.existsPath qs then
        if st.isFilePath qs then
          match st.files.lookup qs with
          | some content =>
              (.ok true,
               { st with files := (qd, content) :: st.files.filter fun f => decide (f.1 ≠ qd) })
          | none => (.error .ioError, st)
        else (.error .ioError, st)
      else (.error .notFound, st)

/-- `FileSystem.move`: both endpoints go through `_safe_path` before
any check or action; then source-exists check, then the move. -/
def fsMove (st : FsState) (base : PathComps) (src dst : List Char) :
    Except FsError Bool × FsState :=
  match safePath base src with
  | none => (.error .securityViolation, st)
  | some qs =>
    match safePath base dst with
    | none => (.error .securityViolation, st)
    | some qd =>
      if st.existsPath qs then
        match st.files.lookup qs with
        | some content =>
            (.ok true,
             { st with files := (qd, content) ::
                 (st.files.filter fun f => decide (f.1 ≠ qs)).filter fun f => decide (f.1 ≠ qd) })
        | none => (.error .ioError, st)
      else (.error .notFound, st)

/-- `FileSystem.getAbsolutePath`: `_safe_path`, then the resolved
path itself. -/
def fsGetAbsolutePath (base : PathComps) (p : List Char) : Except FsError PathComps :=
  match safePath base p with
  | none => .error .securityViolation
  | some q => .ok q

/-- `FileSystem.getFileSize`: `_safe_path`, then existence and
file-ness checks, then `stat().st_size`. -/
def fsGetFileSize (st : FsState) (base : PathComps) (p : List Char) : Except FsError Nat :=
  match safePath base p with
  | none => .error .securityViolation
  | some q =>
    if st.existsPath q then
      if st.isFilePath q then
        match st.files.lookup q with
        | some content => .ok content.length
        | none => .error .ioError
      else .error .ioError
    else .error .notFound

/-- `FileSystem.listFiles`: the empty path and `.` short-circuit to
the base directory; everything else goes through `_safe_path`; then
directory checks and the child listing. -/
def fsListFiles (st : FsState) (base : PathComps) (p : List Char) :
    Except FsError (List (List Char)) :=
  if p = [] ∨ p = ".".toList then
    .ok ((st.files.map (·.1) ++ st.dirs).filterMap fun e =>
      if e.length = base.length + 1 && base.isPrefixOf e then e.getLast? else none)
  else
    match safePath base p with
    | none => .error .securityViolation
    | some q =>
      if st.existsPath q then
        if st.isDirPath q then
          .ok ((st.files.map (·.1) ++ st.dirs).filterMap fun e =>
            if e.length = q.length + 1 && q.isPrefixOf e then e.getLast? else none)
        else .error .ioError
      else .error .notFound

/-! ## Audio introspection (`audio.py`: `AudioUtils`)

Audio buffers are byte lists.  `struct.unpack('<I', ...)` appears as
`readU32LE`; Python's bit operations on bytes are rendered with
division/modulus arithmetic (exactly equivalent on byte values, e.g.
`(b >> 3) & 0x03` is `b / 8 % 4`, and `(b & 0xE0) == 0xE0` is
`b / 32 % 8 = 7`).  `AudioUtils.getAudioSampleRate` catches every
exception and falls back to `DEFAULT_SAMPLE_RATE = 22050`; the only
raising sub-parser is the WAV one (a short `struct.unpack` slice), so
`_getWavSampleRate` is `Option`-valued and the others are total. -/

/-- `data[i : i+n]` as a list slice. -/
def slice (data : List Nat) (i n : Nat) : List Nat :=
  (data.drop i).take n

/-- `b'RIFF'`. -/
def riffMagic : List Nat := [82, 73, 70, 70]
/-- `b'WAVE'`. -/
def waveMagic : List Nat := [87, 65, 86, 69]
/-- `b'fmt '`. -/
def fmtMagic : List Nat := [102, 109, 116, 32]
/-- `b'OggS'`. -/
def oggMagic : List Nat := [79, 103, 103, 83]
/-- `b'fLaC'`. -/
def flacMagic : List Nat := [102, 76, 97, 67]
/-- `b'ftyp'`. -/
def ftypMagic : List Nat := [102, 116, 121, 112]
/-- `b'ID3'`. -/
def id3Magic : List Nat := [73, 68, 51]
/-- `b'\x01vorbis'`. -/
def vorbisMagic : List Nat := [1, 118, 111, 114, 98, 105, 115]

/-- Little-endian serialization of a 32-bit value (helper used to
express structured WAV inputs). -/
def u32le (n : Nat) : List Nat :=
  [n % 256, n / 256 % 256, n / 65536 % 256, n / 16777216 % 256]

/-- `struct.unpack('<I', ...)` of a 4-byte slice (the callers guard
slice length before use; `0` is never reached on guarded paths). -/
def bytesToU32 : List Nat → Nat
  | [b0, b1, b2, b3] => b0 + b1 * 256 + b2 * 65536 + b3 * 16777216
  | _ => 0

/-- `struct.unpack('<I', data[i:i+4])[0]`. -/
def readU32LE (data : List Nat) (i : Nat) : Nat :=
  bytesToU32 (slice data i 4)

/-- The detected container format. -/
inductive AudioFormat where
  | wav
  | mp3
  | ogg
  | flac
  | m4a
  | unknown
deriving DecidableEq, Repr

/-- `AudioUtils._isMp3Frame`: 11-bit frame sync
(`0xFF` then top three bits of the next byte set), with the reserved
version (`1`) and layer (`0`) values excluded. -/
def isMp3Frame (data : List Nat) : Bool :=
  if data.length < 4 then false
  else
    decide (data.getD 0 0 = 255) && decide (data.getD 1 0 / 32 % 8 = 7) &&
    decide (data.getD 1 0 / 8 % 4 ≠ 1) && decide (data.getD 1 0 / 2 % 4 ≠ 0)

/-- `AudioUtils.detectAudioFormat`: magic-byte sniffing in the
source's order (RIFF/WAVE, OggS, fLaC, ftyp, MP3 frame sync, ID3). -/
def detectAudioFormat (data : List Nat) : AudioFormat :=
  if data.length < 4 then .unknown
  else if 12 ≤ data.length ∧ slice data 0 4 = riffMagic ∧ slice data 8 4 = waveMagic then .wav
  else if slice data 0 4 = oggMagic then .ogg
  else if slice data 0 4 = flacMagic then .flac
  else if 8 ≤ data.length ∧ slice data 4 4 = ftypMagic then .m4a
  else if isMp3Frame data then .mp3
  else if 3 ≤ data.length ∧ slice data 0 3 = id3Magic then .mp3
  else .unknown

/-- The chunk-scan loop of `AudioUtils._getWavSampleRate`: at each
chunk header, read the id and little-endian size; on `b'fmt '` read
the sample-rate field at chunk offset 4 and validate it
(`1000..192000`), breaking to the default when invalid; `none` models
the `struct.error` raised when the 4-byte sample-rate slice is cut
short; otherwise skip `8 + size` bytes plus one padding byte after an
odd-sized chunk. -/
def findFmtRate (data : List Nat) (offset : Nat) : Option Nat :=
  if h : offset + 8 ≤ data.length then
    if slice data offset 4 = fmtMagic then
      if offset + 12 ≤ data.length then
        if offset + 16 ≤ data.length then
          if 1000 ≤ readU32LE data (offset + 12) ∧ readU32LE data (offset + 12) ≤ 192000 then
            some (readU32LE data (offset + 12))
          else some 22050
        else none
      else some 22050
    else
      findFmtRate data (offset + 8 + readU32LE data (offset + 4) +
        (if readU32LE data (offset + 4) % 2 = 1 then 1 else 0))
  else some 22050
termination_by data.length - offset
decreasing_by omega

/-- `AudioUtils._getWavSampleRate`: header-length and RIFF/WAVE
checks, then the `fmt ` scan from offset 12. -/
def getWavSampleRate (data : List Nat) : Option Nat :=
  if data.length < 28 then some 22050
  else if slice data 0 4 ≠ riffMagic ∨ slice data 8 4 ≠ waveMagic then some 22050
  else findFmtRate data 12

/-- The `MP3_SAMPLE_RATES` table: `(version, index)` to sample rate,
`0` for the reserved index or a version absent from the table. -/
def mp3SampleRate (ver idx : Nat) : Nat :=
  if ver = 3 then
    if idx = 0 then 44100 else if idx = 1 then 48000 else if idx = 2 then 32000 else 0
  else if ver = 2 then
    if idx = 0 then 22050 else if idx = 1 then 24000 else if idx = 2 then 16000 else 0
  else if ver = 0 then
    if idx = 0 then 11025 else if idx = 1 then 12000 else if idx = 2 then 8000 else 0
  else 0

/-- The frame-sync search loop of `AudioUtils._getMp3SampleRate`:
advance byte-by-byte until a valid frame header yields a non-zero
table entry, up to `maxSearch`. -/
def mp3Scan (data : List Nat) (maxSearch offset : Nat) : Nat :=
  if h : offset + 4 ≤ maxSearch then
    let b1 := data.getD (offset + 1) 0
    if data.getD offset 0 = 255 ∧ b1 / 32 % 8 = 7 then
      if b1 / 8 % 4 = 1 ∨ b1 / 2 % 4 = 0 then mp3Scan data maxSearch (offset + 1)
      else
        let sr := mp3SampleRate (b1 / 8 % 4) (data.getD (offset + 2) 0 / 4 % 4)
        if sr > 0 then sr else mp3Scan data maxSearch (offset + 1)
    else mp3Scan data maxSearch (offset + 1)
  else 22050
termination_by maxSearch - offset
decreasing_by all_goals omega

/-- `AudioUtils._getMp3SampleRate`: skip an ID3v2 header (whose size
is a 4×7-bit synchsafe integer, `(b & 0x7F) << k` rendered as
`b % 128 * 2^k`), then scan at most 8 KiB for a frame sync. -/
def getMp3SampleRate (data : List Nat) : Nat :=
  let offset :=
    if 10 ≤ data.length ∧ slice data 0 3 = id3Magic then
      10 + data.getD 6 0 % 128 * 2097152 + data.getD 7 0 % 128 * 16384 +
        data.getD 8 0 % 128 * 128 + data.getD 9 0 % 128
    else 0
  mp3Scan data (min data.length (offset + 8192)) offset

/-- Python `bytes.find`: index of the first occurrence of `pat` in
`hay`, `none` for `-1`. -/
def findPattern (pat hay : List Nat) : Option Nat :=
  (List.range (hay.length + 1)).find? fun i => pat.isPrefixOf (hay.drop i)

/-- `AudioUtils._getOggSampleRate`: locate `b'\x01vorbis'` within the
first 200 bytes and read the little-endian rate at offset 12 of the
identification header, validated to `1000..192000`. -/
def getOggSampleRate (data : List Nat) : Nat :=
  if data.length < 100 then 22050
  else
    match findPattern vorbisMagic (slice data 0 200) with
    | some pos =>
      if pos + 12 + 4 ≤ data.length then
        let r := readU32LE data (pos + 12)
        if 1000 ≤ r ∧ r ≤ 192000 then r else 22050
      else 22050
    | none => 22050

/-- `AudioUtils._getFlacSampleRate`: check the `fLaC` magic and a
STREAMINFO first metadata block, then read the 20-bit sample-rate
field at bytes 18..20 (`(d18 << 12) | (d19 << 4) | (d20 >> 4)`,
disjoint on byte values, rendered as a sum), validated to
`1000..192000`. -/
def getFlacSampleRate (data : List Nat) : Nat :=
  if data.length < 22 then 22050
  else if slice data 0 4 ≠ flacMagic then 22050
  else if data.getD 4 0 % 128 ≠ 0 then 22050
  else
    let r := data.getD 18 0 * 4096 + data.getD 19 0 * 16 + data.getD 20 0 / 16
    if 1000 ≤ r ∧ r ≤ 192000 then r else 22050

/-- `AudioUtils.getAudioSampleRate`: empty input gives the default;
otherwise dispatch on the sniffed format, catching any parser
exception (the WAV `struct.error`) into the default. -/
def getAudioSampleRate (data : List Nat) : Nat :=
  if data = [] then 22050
  else
    match detectAudioFormat data with
    | .wav => (getWavSampleRate data).getD 22050
    | .mp3 => getMp3SampleRate data
    | .ogg => getOggSampleRate data
    | .flac => getFlacSampleRate data
    | _ => 22050

/-- A serialized WAV sub-chunk: 4-byte id, little-endian size, body,
and a padding byte after an odd-sized body (helper for structured
inputs; not part of the source, which only ever parses). -/
def wavChunk (c : List Nat × List Nat) : List Nat :=
  c.1 ++ u32le c.2.length ++ c.2 ++ (if c.2.length % 2 = 1 then [0] else [])

/-- A serialized RIFF/WAVE file with the given 4-byte size field and
sub-chunk list (helper for structured inputs). -/
def wavFile (fileSize : List Nat) (chunks : List (List Nat × List Nat)) : List Nat :=
  riffMagic ++ fileSize ++ waveMagic ++ (chunks.map wavChunk).flatten

/-! ## Rhino compatibility transformer (`compat/rhino.py`: `RhinoCompatLayer`)

Source text is `List Char`.  Each compiled regex is rendered as a
hand-derived deterministic matcher: all six patterns begin with a
non-empty literal, and their quantifiers (`\s*`, `[^\)]+`,
`[^"\x27]+`, `[a-zA-Z0-9_.]+`) interact so that greedy matching with
backtracking reduces to "maximal run up to the first terminator"
scans, which the doc comment of each matcher spells out.  `re.sub` is
the leftmost non-overlapping scan `subst`; `re.search` (used by
`detect_rhino_features`) is `searchAny`, which tries every start
position. -/

/-- The ASCII whitespace class of `\s` (`[ \t\n\r\f\v]`; the
non-ASCII whitespace Python also accepts is outside the model). -/
def isWs (c : Char) : Bool :=
  c = ' ' || c = '\t' || c = '\n' || c = '\r' || c = '\x0b' || c = '\x0c'

/-- Length of the leading whitespace run (a greedy `\s*`). -/
def countWs : List Char → Nat
  | c :: rest => if isWs c then countWs rest + 1 else 0
  | [] => 0

/-- Match a literal and return the remainder. -/
def stripLit (lit s : List Char) : Option (List Char) :=
  if lit.isPrefixOf s then some (s.drop lit.length) else none

/-- Python `str.strip()` (ASCII whitespace). -/
def trim (s : List Char) : List Char :=
  ((s.dropWhile isWs).reverse.dropWhile isWs).reverse

/-- A quote character (`["\x27]` in the patterns). -/
def isQuote (c : Char) : Bool := c = '"' || c = Char.ofNat 39

/-- `IMPORT_PACKAGE_PATTERN` / `IMPORT_CLASS_PATTERN` without their
leading keyword: `\s*\(\s*([^\)]+)\s*\)\s*;?`.  Greedy analysis:
after `(` the run up to the first `)` must be non-empty (the inner
`\s*` backtracks into `[^\)]+` as needed, so only non-emptiness
matters); then `)`, maximal whitespace, and an optional `;`.
Returns the remainder after the whole match. -/
def matchImportCall (kw s : List Char) : Option (List Char) :=
  match stripLit kw s with
  | none => none
  | some s1 =>
    match s1.drop (countWs s1) with
    | '(' :: s3 =>
      let inner := s3.takeWhile fun c => decide (c ≠ ')')
      if inner.isEmpty then none
      else
        match s3.drop inner.length with
        | ')' :: s5 =>
          match s5.drop (countWs s5) with
          | ';' :: s7 => some s7
          | s6 => some s6
        | _ => none
    | _ => none

/-- `JAVA_TYPE_PATTERN` after the `Java.type` literal:
`\s*\(\s*["\x27]([^"\x27]+)["\x27]\s*\)`.  The opening quote is the
first non-whitespace character after `(`; the capture is the maximal
non-empty run of non-quote characters; then a quote, maximal
whitespace, and `)`.  Returns the capture and the remainder. -/
def matchQuoted (s3 : List Char) : Option (List Char × List Char) :=
  match s3.drop (countWs s3) with
  | q :: s5 =>
    if isQuote q then
      let cap := s5.takeWhile fun c => !(isQuote c)
      if cap.isEmpty then none
      else
        match s5.drop cap.length with
        | _ :: s7 =>
          match s7.drop (countWs s7) with
          | ')' :: s9 => some (cap, s9)
          | _ => none
        | [] => none
    else none
  | [] => none

/-- `Java\.type\s*\(\s*["\x27]([^"\x27]+)["\x27]\s*\)`. -/
def matchJavaType (s : List Char) : Option (List Char × List Char) :=
  match stripLit "Java.type".toList s with
  | none => none
  | some s1 =>
    match s1.drop (countWs s1) with
    | '(' :: s3 => matchQuoted s3
    | _ => none

/-- `GET_BYTES_PATTERN`:
`\.getBytes\s*\(\s*["\x27]([^"\x27]+)["\x27]\s*\)` (a bare
`.getBytes()` without a quoted charset does not match). -/
def matchGetBytes (s : List Char) : Option (List Char × List Char) :=
  match stripLit ".getBytes".toList s with
  | none => none
  | some s1 =>
    match s1.drop (countWs s1) with
    | '(' :: s3 => matchQuoted s3
    | _ => none

/-- `JAVA_STRING_NEW_PATTERN`:
`new\s+java\.lang\.String\s*\(\s*([^,\)]+)\s*,\s*["\x27]([^"\x27]+)["\x27]\s*\)`.
After `(` the region up to the first `,` or `)` must be non-empty and
must end at a `,`; the first capture is that region (the replacement
strips it, so the `\s*`/capture boundary is immaterial); then the
quoted charset as in `matchQuoted`.  Returns both captures and the
remainder. -/
def matchJavaStringNew (s : List Char) : Option (List Char × List Char × List Char) :=
  match stripLit "new".toList s with
  | none => none
  | some s1 =>
    if countWs s1 = 0 then none
    else
      match stripLit "java.lang.String".toList (s1.drop (countWs s1)) with
      | none => none
      | some s2 =>
        match s2.drop (countWs s2) with
        | '(' :: s4 =>
          let arg := s4.takeWhile fun c => decide (c ≠ ',') && decide (c ≠ ')')
          if arg.isEmpty then none
          else
            match s4.drop arg.length with
            | ',' :: s6 =>
              match matchQuoted s6 with
              | some (cs, rem) => some (arg, cs, rem)
              | none => none
            | _ => none
        | _ => none

/-- A character of `[a-zA-Z0-9_.]` (the `PACKAGES_PATTERN` class). -/
def isPkgChar (c : Char) : Bool :=
  ('a' ≤ c && c ≤ 'z') || ('A' ≤ c && c ≤ 'Z') || c.isDigit || c = '_' || c = '.'

/-- `PACKAGES_PATTERN`: `Packages\.([a-zA-Z0-9_.]+)`. -/
def matchPackages (s : List Char) : Option (List Char × List Char) :=
  match stripLit "Packages.".toList s with
  | none => none
  | some s1 =>
    let cap := s1.takeWhile isPkgChar
    if cap.isEmpty then none else some (cap, s1.drop cap.length)

/-- The `type_mapping` table of `_convert_java_type`. -/
def javaTypeMapping (cls : List Char) : Option (List Char) :=
  if cls = "java.lang.String".toList then some "String".toList
  else if cls = "java.lang.Integer".toList then some "Number".toList
  else if cls = "java.lang.Long".toList then some "Number".toList
  else if cls = "java.lang.Double".toList then some "Number".toList
  else if cls = "java.lang.Float".toList then some "Number".toList
  else if cls = "java.lang.Boolean".toList then some "Boolean".toList
  else if cls = "java.lang.Object".toList then some "Object".toList
  else if cls = "java.util.ArrayList".toList then some "Array".toList
  else if cls = "java.util.HashMap".toList then some "Object".toList
  else if cls = "java.util.Map".toList then some "Object".toList
  else if cls = "java.util.List".toList then some "Array".toList
  else none

/-- The `charset_mapping` table of `_convert_java_string_new`,
applied to the uppercased charset, falling back to lowercase. -/
def charsetMapping (cs : List Char) : List Char :=
  let u := upper cs
  if u = "UTF-8".toList then "utf-8".toList
  else if u = "UTF8".toList then "utf-8".toList
  else if u = "GBK".toList then "gbk".toList
  else if u = "GB2312".toList then "gb2312".toList
  else if u = "GB18030".toList then "gb18030".toList
  else if u = "ISO-8859-1".toList then "iso-8859-1".toList
  else if u = "ASCII".toList then "ascii".toList
  else cs.map Char.toLower

/-- One rewrite step: at the current position, either a match with its
replacement text and the total number of characters consumed, or no
match. -/
abbrev RewriteStep := List Char → Option (List Char × Nat)

/-- `re.sub`, fuelled for structural recursion: scan left to right;
at each position emit the replacement and skip the match, or keep the
character and advance.  Every pattern starts with a non-empty literal
so a match consumes at least one character; the recursion drops
`n - 1` of `rest`, i.e. `n` characters of the whole input.  The fuel
bounds the number of positions scanned; `subst` supplies the input
length, which always suffices since each step consumes at least one
character. -/
def substAux (step : RewriteStep) : Nat → List Char → List Char
  | _, [] => []
  | 0, s => s
  | fuel + 1, c :: rest =>
    match step (c :: rest) with
    | some (repl, n) => repl ++ substAux step fuel (rest.drop (n - 1))
    | none => c :: substAux step fuel rest

/-- `re.sub`: the fuelled scan at full fuel. -/
def subst (step : RewriteStep) (s : List Char) : List Char :=
  substAux step s.length s

/-- `re.search` as used by `detect_rhino_features`: does the pattern
match at any start position? -/
def searchAny (step : RewriteStep) (s : List Char) : Bool :=
  s.tails.any fun t => (step t).isSome

/-- `_remove_import_package` as a rewrite step. -/
def stepImportPackage : RewriteStep := fun s =>
  (matchImportCall "importPackage".toList s).map fun rem =>
    ("// [移除] importPackage".toList, s.length - rem.length)

/-- `_remove_import_class` as a rewrite step. -/
def stepImportClass : RewriteStep := fun s =>
  (matchImportCall "importClass".toList s).map fun rem =>
    ("// [移除] importClass".toList, s.length - rem.length)

/-- `_convert_java_type` as a rewrite step: known classes map to the
native type, unknown ones to a generic object constructor. -/
def stepJavaType : RewriteStep := fun s =>
  (matchJavaType s).map fun p =>
    (match javaTypeMapping p.1 with
     | some t => t
     | none => "(function() \x7b return Object; \x7d)()".toList,
     s.length - p.2.length)

/-- `_convert_java_string_new` as a rewrite step: a `TextDecoder`
call on the stripped byte expression and mapped charset. -/
def stepJavaStringNew : RewriteStep := fun s =>
  (matchJavaStringNew s).map fun p =>
    ("new TextDecoder(\"".toList ++ charsetMapping (trim p.2.1) ++
      "\").decode(new Uint8Array(".toList ++ trim p.1 ++ "))".toList,
     s.length - p.2.2.length)

/-- `_convert_get_bytes` as a rewrite step: the replacement is the
fixed `charCodeAt` expression (the computed charset is unused in the
source). -/
def stepGetBytes : RewriteStep := fun s =>
  (matchGetBytes s).map fun p =>
    (".split(\"\").map(c => c.charCodeAt(0))".toList, s.length - p.2.length)

/-- `_remove_packages_reference` as a rewrite step: an inert
placeholder object naming the package path. -/
def stepPackages : RewriteStep := fun s =>
  (matchPackages s).map fun p =>
    ("(\x7b/* Packages.".toList ++ p.1 ++ " */\x7d)".toList, s.length - p.2.length)

/-- The `shim_code` block prepended by
`RhinoCompatLayer._add_compatibility_shims` (byte-for-byte, as a list
of lines joined by newlines). -/
def rhinoShimCode : List Char :=
  (String.intercalate "\n" [
    "",
    "//========== Rhino 兼容性垫片 ==========",
    "(function() \x7b",
    "    // 模拟 Java 对象",
    "    if (typeof Java === \x27undefined\x27) \x7b",
    "        globalThis.Java = \x7b",
    "            type: function(className) \x7b",
    "                // 返回基本类型的 JavaScript 等价物",
    "                var mapping = \x7b",
    "                    \x27java.lang.String\x27: String,",
    "                    \x27java.lang.Integer\x27: Number,",
    "                    \x27java.lang.Long\x27: Number,",
    "                    \x27java.lang.Double\x27: Number,",
    "                    \x27java.lang.Float\x27: Number,",
    "                    \x27java.lang.Boolean\x27: Boolean,",
    "                    \x27java.lang.Object\x27: Object,",
    "                    \x27java.util.ArrayList\x27: Array,",
    "                    \x27java.util.HashMap\x27: Object",
    "                \x7d;",
    "                return mapping[className] || Object;",
    "            \x7d",
    "        \x7d;",
    "    \x7d",
    "    ",
    "    // 模拟 importPackage 函数（空操作）",
    "    if (typeof importPackage === \x27undefined\x27) \x7b",
    "        globalThis.importPackage = function() \x7b\x7d;",
    "    \x7d",
    "    ",
    "    // 模拟 importClass 函数（空操作）",
    "    if (typeof importClass === \x27undefined\x27) \x7b",
    "        globalThis.importClass = function() \x7b\x7d;",
    "    \x7d",
    "    ",
    "    // 模拟 Packages 对象",
    "    if (typeof Packages === \x27undefined\x27) \x7b",
    "        globalThis.Packages = new Proxy(\x7b\x7d, \x7b",
    "            get: function(target, prop) \x7b",
    "                return new Proxy(\x7b\x7d, \x7b",
    "                    get: function() \x7b return function() \x7b\x7d; \x7d",
    "                \x7d);",
    "            \x7d",
    "        \x7d);",
    "    \x7d",
    "    ",
    "    // 为 String 原型添加 getBytes 方法（如果不存在）",
    "    if (!String.prototype.getBytes) \x7b",
    "        String.prototype.getBytes = function(charset) \x7b",
    "            charset = charset || \x27UTF-8\x27;",
    "            // 简单实现：返回 UTF-8 编码的字节数组",
    "            var bytes = [];",
    "            for (var i = 0; i < this.length; i++) \x7b",
    "                var code = this.charCodeAt(i);",
    "                if (code < 0x80) \x7b",
    "                    bytes.push(code);",
    "                \x7d else if (code < 0x800) \x7b",
    "                    bytes.push(0xc0 | (code >> 6));",
    "                    bytes.push(0x80 | (code & 0x3f));",
    "                \x7d else if (code < 0x10000) \x7b",
    "                    bytes.push(0xe0 | (code >> 12));",
    "                    bytes.push(0x80 | ((code >> 6) & 0x3f));",
    "                    bytes.push(0x80 | (code & 0x3f));",
    "                \x7d",
    "            \x7d",
    "            return bytes;",
    "        \x7d;",
    "    \x7d",
    "\x7d)();",
    "// ========== 垫片代码结束 ==========",
    "",
    ""]).toList

/-- Does `needle` occur as a contiguous substring of `hay` (Python
`in`)? -/
def hasSub (needle hay : List Char) : Bool :=
  hay.tails.any fun t => needle.isPrefixOf t

/-- The `needs_shim` test of `_add_compatibility_shims`: any of the
five trigger substrings, checked on the already-rewritten source. -/
def needsShim (code : List Char) : Bool :=
  hasSub "Java.".toList code || hasSub "importPackage".toList code ||
  hasSub "importClass".toList code || hasSub "Packages.".toList code ||
  hasSub "getBytes".toList code

/-- `_add_compatibility_shims`: prepend the shim block iff a trigger
substring is present. -/
def addCompatibilityShims (code : List Char) : List Char :=
  if needsShim code then rhinoShimCode ++ code else code

/-- The five rewrite passes of `preprocess_code`, in order, without
the final shim pass. -/
def rhinoStages (code : List Char) : List Char :=
  subst stepPackages (subst stepGetBytes (subst stepJavaStringNew
    (subst stepJavaType (subst stepImportClass (subst stepImportPackage code)))))

/-- `RhinoCompatLayer.preprocess_code`: empty source is returned as
is; otherwise the ordered rewrites followed by the shim pass. -/
def preprocess_code (code : List Char) : List Char :=
  if code = [] then code else addCompatibilityShims (rhinoStages code)

/-- `RhinoCompatLayer.detect_rhino_features`: probe each pattern
independently on the unmodified source, collecting feature names in
the source's order. -/
def detect_rhino_features (code : List Char) : List (List Char) :=
  (if searchAny stepImportPackage code then ["importPackage".toList] else []) ++
  (if searchAny stepImportClass code then ["importClass".toList] else []) ++
  (if searchAny stepJavaType code then ["Java.type".toList] else []) ++
  (if searchAny stepJavaStringNew code then ["new java.lang.String".toList] else []) ++
  (if searchAny stepGetBytes code then ["String.getBytes".toList] else []) ++
  (if searchAny stepPackages code then ["Packages".toList] else [])

/-! ## Engine lifecycle (`engine.py`: `PluginEngine`)

The engine's mutable state is the context handle, the loaded flag and
the last error.  The try-block body of `load` (context creation,
runtime injection, preprocessing, source evaluation, timezone shim,
init-hook wrapper) is I/O against the embedded interpreter; it enters
the model as an `Except` outcome: `ok` when no exception escapes the
block (init-hook exceptions are swallowed inside it), `error` with
the message otherwise. -/

/-- The engine-instance state mutated by `load`/`unload`:
`self._ctx` (presence of a context), `self._loaded`, `self._error`. -/
structure EngineState where
  ctx : Bool
  loaded : Bool
  error : Option (List Char)
deriving DecidableEq, Repr

/-- The state after `PluginEngine.__init__`. -/
def initialEngineState : EngineState := ⟨false, false, none⟩

/-- `PluginEngine._cleanup`: discard the context and clear the loaded
flag (the recorded error is kept). -/
def cleanup (st : EngineState) : EngineState :=
  { st with ctx := false, loaded := false }

/-- `PluginEngine.is_loaded` (the `self._loaded` observation used by
callers and `get_audio`). -/
def is_loaded (st : EngineState) : Bool := st.loaded

/-- `PluginEngine.load`: return `True` immediately when already
loaded (third component: whether the body ran at all); otherwise run
the body — on success the context stands, the engine is loaded and
the error cleared; on an exception the error is recorded, `_cleanup`
tears the partial state down, and `False` is returned. -/
def load (st : EngineState) (body : Except (List Char) Unit) :
    EngineState × Bool × Bool :=
  if st.loaded then (st, true, false)
  else
    match body with
    | .ok _ => ({ ctx := true, loaded := true, error := none }, true, true)
    | .error e => (cleanup { st with error := some e }, false, true)

/-! ## Synthesis result marshaling (`engine.py`: `get_audio` /
`_get_audio_sync`)

The JS wrapper around `PluginJS.getAudio` always returns a JSON
object carrying either an `error` string or a base64 `audio` payload
(with optional `contentType`); `_get_audio_sync`'s own try-block can
also raise (context errors, `json.loads`).  Both enter the model as
an `Except` of the parsed object. -/

/-- The JSON object produced by the guest-side wrapper. -/
structure GuestAudioJson where
  error : Option (List Char)
  audio : Option (List Nat)
  contentType : Option (List Char)

/-- `PluginAudioResult` from `types/plugin.py` (defaults:
`contentType="audio/wav"`, `sampleRate=22050`). -/
structure PluginAudioResult where
  audio : Option (List Nat)
  contentType : List Char
  sampleRate : Nat
  error : Option (List Char)
deriving Repr

/-- `PluginAudioResult.is_success`: audio present and error absent. -/
def PluginAudioResult.is_success (r : PluginAudioResult) : Bool :=
  r.audio.isSome && r.error.isNone

/-- A `PluginAudioResult` carrying only an error, the other fields at
their dataclass defaults. -/
def errorResult (e : List Char) : PluginAudioResult :=
  ⟨none, "audio/wav".toList, 22050, some e⟩

/-- `PluginEngine._get_audio_sync`: a raised exception becomes an
error result (the exception text elided to its message prefix); a
guest `error` field is passed through; absent or empty base64 audio
is the "音频数据为空" error; a base64 decode failure is the
"Base64 解码失败" error; otherwise the decoded bytes with the guest
content type (default `audio/mpeg`) and the sniffed sample rate. -/
def get_audio_sync (outcome : Except (List Char) GuestAudioJson) : PluginAudioResult :=
  match outcome with
  | .error e => errorResult e
  | .ok result =>
    match result.error with
    | some err => errorResult err
    | none =>
      match result.audio with
      | none => errorResult "音频数据为空".toList
      | some b64 =>
        if b64 = [] then errorResult "音频数据为空".toList
        else
          match base64Decode b64 with
          | none => errorResult "Base64 解码失败".toList
          | some bytes =>
            ⟨some bytes, (result.contentType.getD "audio/mpeg".toList),
             getAudioSampleRate bytes, none⟩

/-- `PluginEngine.get_audio`: fail fast with the "插件未加载" error
result when not loaded, otherwise dispatch the synchronous body
through the single worker. -/
def get_audio (loaded : Bool) (outcome : Except (List Char) GuestAudioJson) :
    PluginAudioResult :=
  if loaded then get_audio_sync outcome else errorResult "插件未加载".toList

/-! ## Plugin registry (`js_engine.py`: `PluginManager`)

The registry is the id-to-engine dictionary (the parallel `_configs`
map carries no behavior the claims touch).  `PluginEngine(config)`
construction plus `engine.load()` enters the model as `load` on a
fresh `initialEngineState` with the same `Except` body as in the
engine model. -/

/-- Remove a key from the id-to-engine dictionary. -/
def dictRemove (st : List (List Char × EngineState)) (k : List Char) :
    List (List Char × EngineState) :=
  st.filter fun kv => decide (kv.1 ≠ k)

/-- `self._engines[plugin_id] = engine` (dict assignment). -/
def dictInsert (st : List (List Char × EngineState)) (k : List Char) (v : EngineState) :
    List (List Char × EngineState) :=
  (k, v) :: dictRemove st k

/-- `PluginManager._unregister_unsafe` (the lock-free internal
variant): `False` when absent;
otherwise pop the engine (and its config) and unload it — unload
exceptions are caught after the pop, so the entry is gone either
way. -/
def unregisterNoLock (st : List (List Char × EngineState)) (k : List Char) :
    List (List Char × EngineState) × Bool :=
  if (st.lookup k).isSome then (dictRemove st k, true) else (st, false)

/-- `PluginManager.register`: an empty id is refused; an existing
instance is unregistered first (full teardown); then a fresh engine
is constructed and loaded — on load failure (or a construction
exception) `False` is returned with nothing registered under the id,
on success the new engine is stored. -/
def register (st : List (List Char × EngineState)) (pluginId : List Char)
    (body : Except (List Char) Unit) : List (List Char × EngineState) × Bool :=
  if pluginId = [] then (st, false)
  else if (load initialEngineState body).2.1 then
    (dictInsert
      (if (st.lookup pluginId).isSome then (unregisterNoLock st pluginId).1 else st)
      pluginId (load initialEngineState body).1, true)
  else
    ((if (st.lookup pluginId).isSome then (unregisterNoLock st pluginId).1 else st), false)

/-! ## Supporting lemmas: base64 -/

theorem b64Val_b64Char : ∀ v, v < 64 → b64Val (b64Char v) = some v := by decide

theorem b64Char_ne_61 : ∀ v, v < 64 → b64Char v ≠ 61 := by decide

/-! ## Supporting lemmas: `Int.land _ 255` is reduction mod 256 -/

theorem ldiff_mask : ∀ k m, m < 2 ^ k → Nat.ldiff (2 ^ k - 1) m = 2 ^ k - 1 - m := by
  intro k
  induction k with
  | zero =>
    intro m hm
    have hm0 : m = 0 := by omega
    subst hm0
    apply Nat.eq_of_testBit_eq
    intro i
    simp [Nat.testBit_ldiff]
  | succ k ih =>
    intro m hm
    have hp : 0 < 2 ^ k := Nat.pos_pow_of_pos k (by omega)
    have hdecomp : Nat.bit m.bodd m.div2 = m := Nat.bit_decomp m
    have hmask : Nat.bit true (2 ^ k - 1) = 2 ^ (k + 1) - 1 := by
      simp [Nat.bit_val, pow_succ]
      omega
    have hdiv2 : m.div2 = m / 2 := Nat.div2_val m
    have hdivlt : m.div2 < 2 ^ k := by
      rw [hdiv2]
      have : (2 : Nat) ^ (k + 1) = 2 ^ k * 2 := pow_succ 2 k
      omega
    rw [← hmask, ← hdecomp, Nat.ldiff_bit, ih _ hdivlt]
    cases hb : m.bodd with
    | true =>
      have : m % 2 = 1 := by rw [Nat.mod_two_of_bodd, hb]; rfl
      simp [Nat.bit_val, pow_succ]
      rw [hdiv2]
      omega
    | false =>
      have : m % 2 = 0 := by rw [Nat.mod_two_of_bodd, hb]; rfl
      simp [Nat.bit_val, pow_succ]
      rw [hdiv2]
      omega

theorem land255_eq_emod (v : Int) (h1 : -128 ≤ v) (h2 : v ≤ 255) :
    Int.land v 255 = v % 256 := by
  cases v with
  | ofNat m =>
    have hstep : Int.land (Int.ofNat m) 255 = Int.ofNat (m &&& 255) := rfl
    have hand : m &&& 255 = m % 256 := by
      have := Nat.and_pow_two_sub_one_eq_mod m 8
      norm_num at this
      exact this
    rw [hstep, hand]
    simp only [Int.ofNat_eq_natCast]
    omega
  | negSucc m =>
    have hm : m ≤ 127 := by
      rw [Int.negSucc_eq] at h1
      omega
    have hstep : Int.land (Int.negSucc m) 255 = Int.ofNat (Nat.ldiff 255 m) := rfl
    have hld : Nat.ldiff 255 m = 255 - m := by
      have := ldiff_mask 8 m (by omega)
      norm_num at this
      exact this
    rw [hstep, hld, Int.negSucc_eq]
    simp only [Int.ofNat_eq_natCast]
    omega

/-! ## Supporting lemmas: PKCS7 padding and CBC chaining -/

theorem zipXor_cancel (a b : List Nat) (h : a.length ≤ b.length) :
    zipXor (zipXor a b) b = a := by
  induction a generalizing b with
  | nil => simp [zipXor]
  | cons x xs ih =>
    cases b with
    | nil => simp at h
    | cons y ys =>
      simp only [zipXor, List.zipWith] at *
      simp only [List.length_cons] at h
      rw [Nat.xor_cancel_right]
      exact congrArg _ (ih ys (by omega))

theorem zipXor_length (a b : List Nat) : (zipXor a b).length = min a.length b.length := by
  simp [zipXor]

theorem pad16_mod (data : List Nat) : (pkcs7Pad16 data).length % 16 = 0 := by
  simp only [pkcs7Pad16, List.length_append, List.length_replicate]
  omega

theorem chunk16_len (l : List Nat) :
    l.length % 16 = 0 → ∀ b ∈ chunk16 l, b.length = 16 := by
  induction l using chunk16.induct with
  | case1 => intro h b hb; rw [chunk16] at hb; simp at hb
  | case2 bs hne ih =>
    intro h b hb
    have hpos : 0 < bs.length := List.length_pos.mpr hne
    have h16 : 16 ≤ bs.length := by omega
    rw [chunk16, if_neg hne] at hb
    rcases List.mem_cons.mp hb with rfl | hb
    · simp only [List.length_take]; omega
    · exact ih (by simp only [List.length_drop]; omega) b hb

theorem chunk16_flatten (bl : List (List Nat)) (h : ∀ b ∈ bl, b.length = 16) :
    chunk16 bl.flatten = bl := by
  induction bl with
  | nil => rw [chunk16]; simp
  | cons b bs ih =>
    have hb : b.length = 16 := h b (by simp)
    have hne : (b :: bs).flatten ≠ [] := by
      simp only [List.flatten_cons]
      intro hc
      have := congrArg List.length hc
      simp only [List.length_append, List.length_nil] at this
      omega
    rw [chunk16, if_neg hne]
    simp only [List.flatten_cons]
    rw [List.take_append_of_le_length (by omega), List.drop_append_of_le_length (by omega)]
    rw [List.take_of_length_le (by omega), List.drop_of_length_le (by omega)]
    simp only [List.nil_append]
    rw [ih (fun x hx => h x (by simp [hx]))]

theorem flatten_chunk16 (l : List Nat) : (chunk16 l).flatten = l := by
  induction l using chunk16.induct with
  | case1 => rw [chunk16]; simp
  | case2 bs hne ih =>
    rw [chunk16, if_neg hne]
    simp only [List.flatten_cons, ih, List.take_append_drop]

theorem cbcEncryptBlocks_len (E : List Nat → List Nat)
    (hE16 : ∀ b, b.length = 16 → (E b).length = 16) :
    ∀ (blocks : List (List Nat)) (prev : List Nat), prev.length = 16 →
      (∀ b ∈ blocks, b.length = 16) →
      ∀ c ∈ cbcEncryptBlocks E prev blocks, c.length = 16 := by
  intro blocks
  induction blocks with
  | nil => intro prev _ _ c hc; simp [cbcEncryptBlocks] at hc
  | cons b bs ih =>
    intro prev hprev hall c hc
    have hb : b.length = 16 := hall b (by simp)
    have hxlen : (zipXor b prev).length = 16 := by
      simp [zipXor_length, hb, hprev]
    have hclen : (E (zipXor b prev)).length = 16 := hE16 _ hxlen
    rw [cbcEncryptBlocks] at hc
    rcases List.mem_cons.mp hc with rfl | hc
    · exact hclen
    · exact ih _ hclen (fun x hx => hall x (by simp [hx])) c hc

theorem cbc_roundtrip_blocks (E D : List Nat → List Nat)
    (hDE : ∀ b, D (E b) = b)
    (hE16 : ∀ b, b.length = 16 → (E b).length = 16) :
    ∀ (blocks : List (List Nat)) (prev : List Nat), prev.length = 16 →
      (∀ b ∈ blocks, b.length = 16) →
      cbcDecryptBlocks D prev (cbcEncryptBlocks E prev blocks) = blocks := by
  intro blocks
  induction blocks with
  | nil => intro prev _ _; rfl
  | cons b bs ih =>
    intro prev hprev hall
    have hb : b.length = 16 := hall b (by simp)
    have hxlen : (zipXor b prev).length = 16 := by simp [zipXor_length, hb, hprev]
    have hclen : (E (zipXor b prev)).length = 16 := hE16 _ hxlen
    rw [cbcEncryptBlocks, cbcDecryptBlocks, hDE]
    rw [zipXor_cancel b prev (by omega)]
    rw [ih _ hclen (fun x hx => hall x (by simp [hx]))]

theorem unpad_append_replicate (d : List Nat) (p : Nat)
    (hp1 : 1 ≤ p) (hp2 : p ≤ 16) (hmod : (d.length + p) % 16 = 0) :
    pkcs7Unpad16 (d ++ List.replicate p p) = some d := by
  have hrep : (List.replicate p p).getLast? = some p := by
    cases p with
    | zero => omega
    | succ n => simp [List.getLast?_replicate]
  have hlast : (d ++ List.replicate p p).getLastD 0 = p := by
    rw [List.getLastD_eq_getLast?, List.getLast?_append, hrep]
    rfl
  have hlen : (d ++ List.replicate p p).length = d.length + p := by simp
  have hsub : d.length + p - p = d.length := by omega
  unfold pkcs7Unpad16
  rw [hlast, hlen, hsub]
  rw [if_pos]
  · rw [List.take_left]
  · refine ⟨hmod, hp1, hp2, by omega, ?_⟩
    rw [List.drop_left]
    simp

theorem pkcs7Unpad16_pad (data : List Nat) :
    pkcs7Unpad16 (pkcs7Pad16 data) = some data := by
  unfold pkcs7Pad16
  exact unpad_append_replicate data _ (by omega) (by omega) (by omega)

/-! ## Claim theorems C1, C2, C3 -/

/-- **C1.** For the transformation `"AES/CBC/PKCS5Padding"` with a
16-byte key and a 16-byte IV, `SymmetricCrypto.__init__` accepts the
configuration, and for every byte sequence `data` — including the
empty sequence and sequences of length an exact multiple of 16 —
`decrypt (encrypt data) = data`.  The AES block cipher is abstract:
`E`/`D` are any mutually inverse, 16-byte-length-preserving block
functions (as the library's AES permutation is). -/
theorem aes_cbc_pkcs5_roundtrip (E D : List Nat → List Nat) (iv data : List Nat)
    (hDE : ∀ b, D (E b) = b)
    (hE16 : ∀ b, b.length = 16 → (E b).length = 16)
    (hiv : iv.length = 16) :
    symmetricCryptoInit "AES/CBC/PKCS5Padding".toList 16 true =
      some ⟨"AES".toList, "CBC".toList, "PKCS5PADDING".toList, 128⟩ ∧
    cryptoDecrypt D iv (cryptoEncrypt E iv data) = some data := by
  constructor
  · decide
  · unfold cryptoEncrypt cryptoDecrypt
    have hpadmod := pad16_mod data
    have hblocks := chunk16_len (pkcs7Pad16 data) hpadmod
    have hcipher := cbcEncryptBlocks_len E hE16 (chunk16 (pkcs7Pad16 data)) iv hiv hblocks
    rw [chunk16_flatten _ hcipher]
    rw [cbc_roundtrip_blocks E D hDE hE16 _ iv hiv hblocks]
    rw [flatten_chunk16]
    exact pkcs7Unpad16_pad data

/-- Witness for C1: the identity block permutation at a concrete IV,
on the empty buffer, a block-aligned 16-byte buffer, and a ragged
3-byte buffer. -/
theorem aes_cbc_pkcs5_roundtrip_witness :
    cryptoDecrypt id (List.replicate 16 0) (cryptoEncrypt id (List.replicate 16 0) []) =
      some [] ∧
    cryptoDecrypt id (List.replicate 16 0)
      (cryptoEncrypt id (List.replicate 16 0) (List.range 16)) = some (List.range 16) ∧
    cryptoDecrypt id (List.replicate 16 0) (cryptoEncrypt id (List.replicate 16 0) [1, 2, 3]) =
      some [1, 2, 3] :=
  ⟨(aes_cbc_pkcs5_roundtrip id id (List.replicate 16 0) []
      (fun _ => rfl) (fun _ h => h) (by simp)).2,
   (aes_cbc_pkcs5_roundtrip id id (List.replicate 16 0) (List.range 16)
      (fun _ => rfl) (fun _ h => h) (by simp)).2,
   (aes_cbc_pkcs5_roundtrip id id (List.replicate 16 0) [1, 2, 3]
      (fun _ => rfl) (fun _ h => h) (by simp)).2⟩

/-- **C2.** For every byte sequence `l` (bytes `< 256`), including
sequences containing `0x00`, `base64Decode (base64Encode l) = some l`:
the host-side base64 codec path never truncates at a null byte. -/
theorem base64_decode_encode (l : List Nat) (h : ∀ b ∈ l, b < 256) :
    base64Decode (base64Encode l) = some l := by
  induction l using base64Encode.induct with
  | case1 a b c rest ih =>
    have ha : a < 256 := h a (by simp)
    have hb : b < 256 := h b (by simp)
    have hc : c < 256 := h c (by simp)
    have ih' := ih (fun x hx => h x (by simp [hx]))
    have h1 : a / 4 < 64 := by omega
    have h2 : a % 4 * 16 + b / 16 < 64 := by omega
    have h3 : b % 16 * 4 + c / 64 < 64 := by omega
    have h4 : c % 64 < 64 := by omega
    simp only [base64Encode, base64Decode, b64Val_b64Char _ h1, b64Val_b64Char _ h2,
      b64Val_b64Char _ h3, b64Val_b64Char _ h4, if_neg (b64Char_ne_61 _ h3),
      if_neg (b64Char_ne_61 _ h4), ih']
    refine congrArg some ?_
    have e1 : a / 4 * 4 + (a % 4 * 16 + b / 16) / 16 = a := by omega
    have e2 : (a % 4 * 16 + b / 16) % 16 * 16 + (b % 16 * 4 + c / 64) / 4 = b := by omega
    have e3 : (b % 16 * 4 + c / 64) % 4 * 64 + c % 64 = c := by omega
    rw [e1, e2, e3]
  | case2 a b =>
    have ha : a < 256 := h a (by simp)
    have hb : b < 256 := h b (by simp)
    have h1 : a / 4 < 64 := by omega
    have h2 : a % 4 * 16 + b / 16 < 64 := by omega
    have h3 : b % 16 * 4 < 64 := by omega
    simp only [base64Encode, base64Decode, b64Val_b64Char _ h1, b64Val_b64Char _ h2,
      b64Val_b64Char _ h3, if_neg (b64Char_ne_61 _ h3), if_pos rfl]
    refine congrArg some ?_
    have e1 : a / 4 * 4 + (a % 4 * 16 + b / 16) / 16 = a := by omega
    have e2 : (a % 4 * 16 + b / 16) % 16 * 16 + b % 16 * 4 / 4 = b := by omega
    rw [e1, e2]
  | case3 a =>
    have ha : a < 256 := h a (by simp)
    have h1 : a / 4 < 64 := by omega
    have h2 : a % 4 * 16 < 64 := by omega
    simp only [base64Encode, base64Decode, b64Val_b64Char _ h1, b64Val_b64Char _ h2,
      if_pos rfl]
    simp only [and_self, if_pos]
    refine congrArg some ?_
    have e1 : a / 4 * 4 + a % 4 * 16 / 16 = a := by omega
    rw [e1]
  | case4 => rfl

/-- The empty relative path resolves to the base directory itself. -/
theorem safePath_nil (base : PathComps) : safePath base [] = some base := by
  have hres : resolvePath base [] = base := rfl
  unfold safePath
  rw [hres, if_pos]
  rw [List.isPrefixOf_iff_prefix]

/-- **C4.** For every path whose resolution against the sandbox root
escapes the root, `_safe_path` raises the security error
(`ValueError`) and therefore every filesystem operation rejects the
request before performing any action: the state is returned
unchanged, nothing outside the root is read, written, created or
deleted.  The final conjunct is the no-clamping property: whenever
`_safe_path` does accept, it returns exactly the resolution, and that
resolution is inside the root. -/
theorem fs_sandbox_rejects_escape (base : PathComps) (p : List Char) (st : FsState)
    (content : List Nat) (src dst : List Char)
    (h : safePath base p = none) :
    fsReadBytes st base p = .error .securityViolation ∧
    fsWriteBytes st base p content = (.error .securityViolation, st) ∧
    fsMkdir st base p = (.error .securityViolation, st) ∧
    fsMkdirs st base p = (.error .securityViolation, st) ∧
    fsDelete st base p = (.error .securityViolation, st) ∧
    fsCopy st base p dst = (.error .securityViolation, st) ∧
    fsCopy st base src p = (.error .securityViolation, st) ∧
    fsMove st base p dst = (.error .securityViolation, st) ∧
    fsMove st base src p = (.error .securityViolation, st) ∧
    fsGetAbsolutePath base p = .error .securityViolation ∧
    fsGetFileSize st base p = .error .securityViolation ∧
    fsListFiles st base p = .error .securityViolation ∧
    (∀ q, safePath base p ≠ some q) ∧
    (∀ p₂ q, safePath base p₂ = some q → q = resolvePath base p₂ ∧ base <+: q) := by
  have hpne : p ≠ [] := by
    intro hp
    rw [hp, safePath_nil] at h
    cases h
  have hpdot : p ≠ ['.'] := by
    intro hp
    have hres : resolvePath base ['.'] = base := rfl
    rw [hp] at h
    unfold safePath at h
    rw [hres, if_pos (by rw [List.isPrefixOf_iff_prefix])] at h
    cases h
  refine ⟨?_, ?_, ?_, ?_, ?_, ?_, ?_, ?_, ?_, ?_, ?_, ?_, ?_, ?_⟩
  · simp [fsReadBytes, h]
  · simp [fsWriteBytes, h]
  · simp [fsMkdir, h]
  · simp [fsMkdirs, h]
  · simp [fsDelete, h]
  · simp [fsCopy, h]
  · cases hs : safePath base src <;> simp [fsCopy, hs, h]
  · simp [fsMove, h]
  · cases hs : safePath base src <;> simp [fsMove, hs, h]
  · simp [fsGetAbsolutePath, h]
  · simp [fsGetFileSize, h]
  · rw [fsListFiles, if_neg (by simp [hpne, hpdot]), h]
  · intro q hq
    rw [h] at hq
    cases hq
  · intro p₂ q hq
    unfold safePath at hq
    by_cases hp : base.isPrefixOf (resolvePath base p₂)
    · rw [if_pos hp] at hq
      cases hq
      exact ⟨rfl, List.isPrefixOf_iff_prefix.mp hp⟩
    · rw [if_neg hp] at hq
      cases hq

/-- Witness for C4: the claim's concrete instance — the path
`"../../etc/passwd"` against the root `/data/plugins/p1` is rejected
by `delete` (and `_safe_path` returns no path at all). -/
theorem fs_sandbox_rejects_escape_witness :
    fsDelete ⟨[], []⟩ (parsePath "/data/plugins/p1".toList).2 "../../etc/passwd".toList =
      (.error .securityViolation, ⟨[], []⟩) :=
  (fs_sandbox_rejects_escape (parsePath "/data/plugins/p1".toList).2
    "../../etc/passwd".toList ⟨[], []⟩ [] [] [] (by decide)).2.2.2.2.1

/-- **C10.** For every path that escapes the sandbox root (and for
every path whose underlying OS query raises `OSError`, the `osErr`
oracle), `FileSystem.exists` and `FileSystem.isFile` return `False`
instead of raising — observably identical to an in-root path at which
nothing exists. -/
theorem fs_exists_isFile_escape_false (base : PathComps) (p p₂ : List Char)
    (st : FsState) (osErr : Bool) (q : PathComps)
    (h : safePath base p = none) :
    (fsExists osErr st base p = false ∧ fsIsFile osErr st base p = false) ∧
    (safePath base p₂ = some q → st.existsPath q = false →
      fsExists false st base p₂ = false ∧ fsIsFile false st base p₂ = false) ∧
    (safePath base p₂ = some q →
      fsExists true st base p₂ = false ∧ fsIsFile true st base p₂ = false) := by
  refine ⟨⟨by simp [fsExists, h], by simp [fsIsFile, h]⟩, ?_, ?_⟩
  · intro hq hmiss
    have hfile : st.isFilePath q = false := by
      have := hmiss
      unfold FsState.existsPath at this
      cases hf : st.isFilePath q
      · rfl
      · rw [hf] at this
        simp at this
    exact ⟨by simp [fsExists, hq, hmiss], by simp [fsIsFile, hq, hfile]⟩
  · intro hq
    exact ⟨by simp [fsExists, hq], by simp [fsIsFile, hq]⟩

/-- Witness for C10: the escaping path `"../../etc/passwd"` and the
missing in-root path `"missing.txt"` are both reported as absent on
an empty sandbox. -/
theorem fs_exists_isFile_escape_false_witness :
    fsExists false ⟨[], []⟩ (parsePath "/data/plugins/p1".toList).2
        "../../etc/passwd".toList = false ∧
    fsIsFile false ⟨[], []⟩ (parsePath "/data/plugins/p1".toList).2
        "missing.txt".toList = false :=
  ⟨(fs_exists_isFile_escape_false (parsePath "/data/plugins/p1".toList).2
      "../../etc/passwd".toList "missing.txt".toList ⟨[], []⟩ false
      (resolvePath (parsePath "/data/plugins/p1".toList).2 "missing.txt".toList)
      (by decide)).1.1,
   ((fs_exists_isFile_escape_false (parsePath "/data/plugins/p1".toList).2
      "../../etc/passwd".toList "missing.txt".toList ⟨[], []⟩ false
      (resolvePath (parsePath "/data/plugins/p1".toList).2 "missing.txt".toList)
      (by decide)).2.1 (by decide) (by decide)).2⟩

/-- Witness for C2: a buffer with interior and leading `0x00` bytes
round-trips intact. -/
theorem base64_decode_encode_witness :
    base64Decode (base64Encode [0, 82, 0, 255, 0]) = some [0, 82, 0, 255, 0] :=
  base64_decode_encode [0, 82, 0, 255, 0] (by decide)

/-- **C3.** For every guest numeric byte array whose elements are in
`-128..255`, `PluginEngine._convert_js_bytes` maps each element `v` to
`v mod 256` (signed 8-bit values normalized to unsigned `0..255`). -/
theorem convert_js_bytes_mod256 (l : List Int) (h : ∀ v ∈ l, -128 ≤ v ∧ v ≤ 255) :
    convert_js_bytes l = l.map fun v => (v % 256).toNat := by
  unfold convert_js_bytes
  apply List.map_congr_left
  intro v hv
  rw [land255_eq_emod v (h v hv).1 (h v hv).2]

/-- Witness for C3: the guest array `[-1, -128, 127, 0]` converts to
the bytes `[255, 128, 127, 0]`. -/
theorem convert_js_bytes_mod256_witness :
    convert_js_bytes [-1, -128, 127, 0] = [255, 128, 127, 0] :=
  (convert_js_bytes_mod256 [-1, -128, 127, 0] (by decide)).trans (by decide)

/-! ## Supporting lemmas: WAV chunk scan -/

theorem drop_append_add {α : Type} (H L : List α) (k : Nat) :
    (H ++ L).drop (H.length + k) = L.drop k := by
  induction H with
  | nil => simp
  | cons a t ih => simp [Nat.succ_add, ih]

theorem slice_append_add (H L : List Nat) (k n : Nat) :
    slice (H ++ L) (H.length + k) n = slice L k n := by
  unfold slice
  rw [drop_append_add]

theorem slice_append (H L : List Nat) (n : Nat) :
    slice (H ++ L) H.length n = L.take n := by
  have h := slice_append_add H L 0 n
  simp only [Nat.add_zero] at h
  rw [h]
  simp [slice]

theorem u32le_length (n : Nat) : (u32le n).length = 4 := rfl

theorem bytesToU32_u32le (n : Nat) (h : n < 4294967296) : bytesToU32 (u32le n) = n := by
  have hval : bytesToU32 (u32le n) =
      n % 256 + n / 256 % 256 * 256 + n / 65536 % 256 * 65536 +
        n / 16777216 % 256 * 16777216 := rfl
  rw [hval]
  omega

theorem wavChunk_length (c : List Nat × List Nat) (h4 : c.1.length = 4) :
    (wavChunk c).length = 8 + c.2.length + (if c.2.length % 2 = 1 then 1 else 0) := by
  unfold wavChunk
  by_cases hodd : c.2.length % 2 = 1 <;> simp [hodd, h4, u32le_length] <;> omega

theorem findFmtRate_cons (H : List Nat) (c : List Nat × List Nat) (R : List Nat)
    (hc4 : c.1.length = 4) (hcne : c.1 ≠ fmtMagic) (hcsz : c.2.length < 4294967296) :
    findFmtRate (H ++ (wavChunk c ++ R)) H.length =
      findFmtRate (H ++ (wavChunk c ++ R)) (H.length + (wavChunk c).length) := by
  have hlen : (wavChunk c).length = 8 + c.2.length + (if c.2.length % 2 = 1 then 1 else 0) :=
    wavChunk_length c hc4
  have hguard : H.length + 8 ≤ (H ++ (wavChunk c ++ R)).length := by
    simp only [List.length_append]
    omega
  have hunf : wavChunk c ++ R =
      c.1 ++ (u32le c.2.length ++ ((c.2 ++ (if c.2.length % 2 = 1 then [0] else [])) ++ R)) := by
    unfold wavChunk
    simp [List.append_assoc]
  have hid : slice (H ++ (wavChunk c ++ R)) H.length 4 = c.1 := by
    rw [slice_append, hunf, List.take_left' hc4]
  have hsize : readU32LE (H ++ (wavChunk c ++ R)) (H.length + 4) = c.2.length := by
    unfold readU32LE
    rw [slice_append_add, hunf]
    unfold slice
    rw [List.drop_left' hc4, List.take_left' (u32le_length _)]
    exact bytesToU32_u32le _ hcsz
  rw [findFmtRate, dif_pos hguard, if_neg (by rw [hid]; exact hcne), hsize]
  congr 1
  omega

theorem findFmtRate_skip (cs : List (List Nat × List Nat)) :
    ∀ (H T : List Nat),
      (∀ c ∈ cs, c.1.length = 4 ∧ c.1 ≠ fmtMagic ∧ c.2.length < 4294967296) →
      findFmtRate (H ++ ((cs.map wavChunk).flatten ++ T)) H.length =
        findFmtRate (H ++ ((cs.map wavChunk).flatten ++ T))
          (H.length + ((cs.map wavChunk).flatten).length) := by
  induction cs with
  | nil => intro H T h; simp
  | cons c cs ih =>
    intro H T h
    obtain ⟨hc4, hcne, hcsz⟩ := h c (by simp)
    have hdata : (((c :: cs).map wavChunk).flatten ++ T) =
        wavChunk c ++ (((cs.map wavChunk).flatten) ++ T) := by
      simp [List.append_assoc]
    rw [hdata]
    rw [findFmtRate_cons H c _ hc4 hcne hcsz]
    have hih := ih (H ++ wavChunk c) T (fun x hx => h x (by simp [hx]))
    rw [List.append_assoc] at hih
    rw [List.length_append] at hih
    rw [hih]
    congr 1
    simp [List.length_append]
    omega

theorem take_append_len (A B : List Nat) (n : Nat) (h : A.length = n) :
    (A ++ B).take n = A := by
  subst h
  exact List.take_left A B

theorem drop_append_len (A B : List Nat) (n : Nat) (h : A.length = n) :
    (A ++ B).drop n = B := by
  subst h
  exact List.drop_left A B

theorem findFmtRate_hit (H body T : List Nat) (r : Nat)
    (hb8 : 8 ≤ body.length) (hbsz : body.length < 4294967296)
    (hrate : slice body 4 4 = u32le r) (hr1 : 1000 ≤ r) (hr2 : r ≤ 192000) :
    findFmtRate (H ++ (wavChunk (fmtMagic, body) ++ T)) H.length = some r := by
  have hlen : (wavChunk (fmtMagic, body)).length =
      8 + body.length + (if body.length % 2 = 1 then 1 else 0) :=
    wavChunk_length _ rfl
  have hguard : H.length + 8 ≤ (H ++ (wavChunk (fmtMagic, body) ++ T)).length := by
    simp only [List.length_append]
    omega
  have hguard12 : H.length + 12 ≤ (H ++ (wavChunk (fmtMagic, body) ++ T)).length := by
    simp only [List.length_append]
    omega
  have hguard16 : H.length + 16 ≤ (H ++ (wavChunk (fmtMagic, body) ++ T)).length := by
    simp only [List.length_append]
    omega
  have hunf : wavChunk (fmtMagic, body) ++ T =
      (fmtMagic ++ u32le body.length) ++
        (body ++ ((if body.length % 2 = 1 then [0] else []) ++ T)) := by
    unfold wavChunk
    simp [List.append_assoc]
  have hid : slice (H ++ (wavChunk (fmtMagic, body) ++ T)) H.length 4 = fmtMagic := by
    rw [slice_append, hunf, List.append_assoc, take_append_len fmtMagic _ 4 rfl]
  have hread : readU32LE (H ++ (wavChunk (fmtMagic, body) ++ T)) (H.length + 12) = r := by
    unfold readU32LE
    rw [slice_append_add, hunf]
    unfold slice
    have h12 : (12 : Nat) = (fmtMagic ++ u32le body.length).length + 4 := by
      simp [u32le_length, fmtMagic]
    rw [h12, drop_append_add]
    rw [List.drop_append_of_le_length (by omega)]
    rw [List.take_append_of_le_length (by simp [List.length_drop]; omega)]
    have : (body.drop 4).take 4 = slice body 4 4 := rfl
    rw [this, hrate]
    exact bytesToU32_u32le r (by omega)
  rw [findFmtRate, dif_pos hguard, if_pos hid, if_pos hguard12, if_pos hguard16, hread,
    if_pos ⟨hr1, hr2⟩]

theorem wavFile_slice04 (fs : List Nat) (chunks : List (List Nat × List Nat)) :
    slice (wavFile fs chunks) 0 4 = riffMagic := by
  unfold wavFile slice
  rw [List.drop_zero, List.append_assoc, List.append_assoc,
    take_append_len riffMagic _ 4 rfl]

theorem wavFile_slice84 (fs : List Nat) (chunks : List (List Nat × List Nat))
    (hfs : fs.length = 4) :
    slice (wavFile fs chunks) 8 4 = waveMagic := by
  unfold wavFile slice
  have hw : riffMagic ++ fs ++ waveMagic ++ (chunks.map wavChunk).flatten =
      (riffMagic ++ fs) ++ (waveMagic ++ (chunks.map wavChunk).flatten) := by
    simp [List.append_assoc]
  rw [hw, drop_append_len (riffMagic ++ fs) _ 8 (by simp [riffMagic, hfs]),
    take_append_len waveMagic _ 4 rfl]

theorem getWavSampleRate_structured (fs : List Nat)
    (pre post : List (List Nat × List Nat)) (body : List Nat) (r : Nat)
    (hfs : fs.length = 4)
    (hpre : ∀ c ∈ pre, c.1.length = 4 ∧ c.1 ≠ fmtMagic ∧ c.2.length < 4294967296)
    (hb8 : 8 ≤ body.length) (hbsz : body.length < 4294967296)
    (hrate : slice body 4 4 = u32le r) (hr1 : 1000 ≤ r) (hr2 : r ≤ 192000) :
    getWavSampleRate (wavFile fs (pre ++ (fmtMagic, body) :: post)) = some r := by
  have hwlen : (wavChunk (fmtMagic, body)).length =
      8 + body.length + (if body.length % 2 = 1 then 1 else 0) :=
    wavChunk_length _ rfl
  have hdata : wavFile fs (pre ++ (fmtMagic, body) :: post) =
      (riffMagic ++ fs ++ waveMagic) ++
        ((pre.map wavChunk).flatten ++
          (wavChunk (fmtMagic, body) ++ (post.map wavChunk).flatten)) := by
    unfold wavFile
    simp [List.append_assoc]
  have hhdr : (riffMagic ++ fs ++ waveMagic).length = 12 := by
    simp [riffMagic, waveMagic, hfs]
  have hlen28 : 28 ≤ (wavFile fs (pre ++ (fmtMagic, body) :: post)).length := by
    rw [hdata]
    simp only [List.length_append] at hhdr ⊢
    omega
  have hriff := wavFile_slice04 fs (pre ++ (fmtMagic, body) :: post)
  have hwave := wavFile_slice84 fs (pre ++ (fmtMagic, body) :: post) hfs
  unfold getWavSampleRate
  rw [if_neg (by omega), if_neg (by simp [hriff, hwave])]
  have h12 : (12 : Nat) = (riffMagic ++ fs ++ waveMagic).length := hhdr.symm
  rw [hdata, h12]
  rw [findFmtRate_skip pre _ _ hpre]
  have hassoc : (riffMagic ++ fs ++ waveMagic) ++
      ((pre.map wavChunk).flatten ++
        (wavChunk (fmtMagic, body) ++ (post.map wavChunk).flatten)) =
      ((riffMagic ++ fs ++ waveMagic) ++ (pre.map wavChunk).flatten) ++
        (wavChunk (fmtMagic, body) ++ (post.map wavChunk).flatten) := by
    simp [List.append_assoc]
  have hofs : (riffMagic ++ fs ++ waveMagic).length + ((pre.map wavChunk).flatten).length =
      ((riffMagic ++ fs ++ waveMagic) ++ (pre.map wavChunk).flatten).length := by
    simp [List.length_append]
    omega
  rw [hassoc, hofs]
  exact findFmtRate_hit _ body _ r hb8 hbsz hrate hr1 hr2

theorem detect_wavFile (fs : List Nat) (chunks : List (List Nat × List Nat))
    (hfs : fs.length = 4)
    (hlen : 12 ≤ (wavFile fs chunks).length) :
    detectAudioFormat (wavFile fs chunks) = .wav := by
  unfold detectAudioFormat
  rw [if_neg (by omega),
    if_pos ⟨hlen, wavFile_slice04 fs chunks, wavFile_slice84 fs chunks hfs⟩]

theorem tiny_buffer_default (data : List Nat) (h : data.length < 4) :
    getAudioSampleRate data = 22050 := by
  unfold getAudioSampleRate
  by_cases hne : data = []
  · rw [if_pos hne]
  · rw [if_neg hne]
    unfold detectAudioFormat
    rw [if_pos h]

theorem short_riff_default (data : List Nat) (h4 : data.take 4 = riffMagic)
    (hlen : data.length < 28) : getAudioSampleRate data = 22050 := by
  have hlen4 : 4 ≤ data.length := by
    have hl := congrArg List.length h4
    simp only [List.length_take, riffMagic, List.length_cons, List.length_nil] at hl
    omega
  have hne : data ≠ [] := by
    intro hc
    rw [hc] at hlen4
    simp at hlen4
  have hdata : data = riffMagic ++ data.drop 4 := by
    conv_lhs => rw [← List.take_append_drop 4 data]
    rw [h4]
  have hslice04 : slice data 0 4 = riffMagic := by
    unfold slice
    rw [List.drop_zero, h4]
  unfold getAudioSampleRate
  rw [if_neg hne]
  unfold detectAudioFormat
  rw [if_neg (by omega)]
  by_cases hwav : 12 ≤ data.length ∧ slice data 0 4 = riffMagic ∧ slice data 8 4 = waveMagic
  · rw [if_pos hwav]
    unfold getWavSampleRate
    rw [if_pos hlen]
    rfl
  · rw [if_neg hwav]
    rw [if_neg (by rw [hslice04]; decide)]
    rw [if_neg (by rw [hslice04]; decide)]
    have hd0 : data.getD 0 0 = 82 := by
      conv_lhs => rw [hdata]
      rfl
    have hmp3 : isMp3Frame data = false := by
      unfold isMp3Frame
      rw [if_neg (by omega)]
      have hd0g : data[0]?.getD 0 = 82 := by
        rw [← List.getD_eq_getElem?_getD]
        exact hd0
      simp [hd0g]
    by_cases hm4a : 8 ≤ data.length ∧ slice data 4 4 = ftypMagic
    · rw [if_pos hm4a]
    · rw [if_neg hm4a]
      rw [if_neg (by simp [hmp3])]
      have hid3 : slice data 0 3 = [82, 73, 70] := by
        unfold slice
        rw [List.drop_zero]
        conv_lhs => rw [hdata]
        rfl
      rw [if_neg (by rw [hid3]; simp [id3Magic])]

/-! ## Claim theorem C5 -/

/-- **C5.** `getAudioSampleRate` on a serialized RIFF/WAVE buffer
returns the little-endian 32-bit sample-rate field of the `fmt `
sub-chunk, locating it after arbitrary leading non-`fmt ` sub-chunks
(odd-sized ones padded to even); and every buffer too short to
contain the 28-byte WAV header (a RIFF-prefixed buffer shorter than
28 bytes, or any buffer shorter than the 4-byte magic) yields the
22050 default. -/
theorem wav_sample_rate_extraction :
    (∀ (fs : List Nat) (pre post : List (List Nat × List Nat)) (body : List Nat) (r : Nat),
      fs.length = 4 →
      (∀ c ∈ pre, c.1.length = 4 ∧ c.1 ≠ fmtMagic ∧ c.2.length < 4294967296) →
      8 ≤ body.length → body.length < 4294967296 →
      slice body 4 4 = u32le r → 1000 ≤ r → r ≤ 192000 →
      getAudioSampleRate (wavFile fs (pre ++ (fmtMagic, body) :: post)) = r) ∧
    (∀ data : List Nat, data.take 4 = riffMagic → data.length < 28 →
      getAudioSampleRate data = 22050) ∧
    (∀ data : List Nat, data.length < 4 → getAudioSampleRate data = 22050) := by
  refine ⟨?_, short_riff_default, tiny_buffer_default⟩
  intro fs pre post body r hfs hpre hb8 hbsz hrv hr1 hr2
  have hwav := getWavSampleRate_structured fs pre post body r hfs hpre hb8 hbsz hrv hr1 hr2
  have hwlen : (wavChunk (fmtMagic, body)).length =
      8 + body.length + (if body.length % 2 = 1 then 1 else 0) :=
    wavChunk_length _ rfl
  have hlen28 : 28 ≤ (wavFile fs (pre ++ (fmtMagic, body) :: post)).length := by
    unfold wavFile
    simp only [List.length_append, List.map_append, List.map_cons, List.flatten_append,
      List.flatten_cons, riffMagic, waveMagic, List.length_cons, List.length_nil, hfs]
    omega
  have hne : wavFile fs (pre ++ (fmtMagic, body) :: post) ≠ [] := by
    intro hc
    rw [hc] at hlen28
    simp at hlen28
  unfold getAudioSampleRate
  rw [if_neg hne, detect_wavFile fs _ hfs (by omega)]
  rw [hwav]
  rfl

/-- Witness for C5: a minimal synthetic WAV whose `fmt ` sample-rate
field is 44100 yields 44100, also with a leading odd-sized junk chunk
before `fmt `; RIFF-prefixed and tiny buffers shorter than the header
yield 22050. -/
theorem wav_sample_rate_extraction_witness :
    getAudioSampleRate (wavFile [36, 0, 0, 0]
      [(fmtMagic, [1, 0, 2, 0] ++ u32le 44100 ++ u32le 176400 ++ [4, 0, 16, 0])]) = 44100 ∧
    getAudioSampleRate (wavFile [57, 0, 0, 0]
      [([74, 85, 78, 75], [9, 9, 9]),
       (fmtMagic, [1, 0, 2, 0] ++ u32le 44100 ++ u32le 176400 ++ [4, 0, 16, 0])]) = 44100 ∧
    getAudioSampleRate (riffMagic ++ [0]) = 22050 ∧
    getAudioSampleRate [82] = 22050 :=
  ⟨wav_sample_rate_extraction.1 [36, 0, 0, 0] [] []
      ([1, 0, 2, 0] ++ u32le 44100 ++ u32le 176400 ++ [4, 0, 16, 0]) 44100
      (by decide) (by decide) (by decide) (by decide) (by decide) (by decide) (by decide),
   wav_sample_rate_extraction.1 [57, 0, 0, 0] [([74, 85, 78, 75], [9, 9, 9])] []
      ([1, 0, 2, 0] ++ u32le 44100 ++ u32le 176400 ++ [4, 0, 16, 0]) 44100
      (by decide) (by decide) (by decide) (by decide) (by decide) (by decide) (by decide),
   wav_sample_rate_extraction.2.1 (riffMagic ++ [0]) (by decide) (by decide),
   wav_sample_rate_extraction.2.2 [82] (by decide)⟩

/-! ## Supporting lemmas: Rhino transformer -/

theorem searchAny_eq_false (step : RewriteStep) (code : List Char)
    (h : searchAny step code = false) : ∀ t ∈ code.tails, step t = none := by
  intro t ht
  unfold searchAny at h
  rw [List.any_eq_false] at h
  have hf := h t ht
  cases hs : step t with
  | none => rfl
  | some p =>
    rw [hs] at hf
    simp at hf

theorem substAux_id (step : RewriteStep) (fuel : Nat) :
    ∀ code : List Char, (∀ t ∈ code.tails, step t = none) →
      substAux step fuel code = code := by
  induction fuel with
  | zero =>
    intro code _
    cases code <;> rfl
  | succ fuel ih =>
    intro code h
    cases code with
    | nil => rfl
    | cons c rest =>
      have h0 : step (c :: rest) = none := h (c :: rest) (by simp)
      rw [substAux, h0]
      exact congrArg (c :: ·)
        (ih rest fun t ht => h t (by rw [List.tails_cons]; exact List.mem_cons_of_mem _ ht))

theorem subst_id (step : RewriteStep) (code : List Char)
    (h : ∀ t ∈ code.tails, step t = none) : subst step code = code :=
  substAux_id step code.length code h

/-! ## Claim theorems C6 -/

set_option maxRecDepth 100000

/-- **C6 counterexample.** The source `var b = s.getBytes("UTF-8");`
contains a legacy construct — `detect_rhino_features` reports
`String.getBytes` — yet `preprocess_code` does **not** prepend the
shim block: the `getBytes` rewrite removes the only trigger substring
before `_add_compatibility_shims` runs its substring checks, so the
output is the bare rewritten source.  This refutes "the shim is
prepended if and only if a legacy construct is detected". -/
theorem rhino_shim_iff_detected_counterexample :
    detect_rhino_features "var b = s.getBytes(\"UTF-8\");".toList =
      ["String.getBytes".toList] ∧
    preprocess_code "var b = s.getBytes(\"UTF-8\");".toList =
      "var b = s.split(\"\").map(c => c.charCodeAt(0));".toList ∧
    rhinoShimCode.isPrefixOf
      (preprocess_code "var b = s.getBytes(\"UTF-8\");".toList) = false := by
  refine ⟨by decide, by decide, by decide⟩

/-- **C6 (amended).** `preprocess_code` prepends the shim block iff
the *rewritten* source still contains one of the five trigger
substrings (`Java.`, `importPackage`, `importClass`, `Packages.`,
`getBytes`); for every source that matches none of the six rewrite
patterns and contains none of the trigger substrings, the transform
returns the source exactly unchanged, and `detect_rhino_features`
returns an empty list (both are pure functions of the source, which
is never mutated). -/
theorem rhino_preprocess_no_constructs (code : List Char)
    (h1 : searchAny stepImportPackage code = false)
    (h2 : searchAny stepImportClass code = false)
    (h3 : searchAny stepJavaType code = false)
    (h4 : searchAny stepJavaStringNew code = false)
    (h5 : searchAny stepGetBytes code = false)
    (h6 : searchAny stepPackages code = false)
    (h7 : needsShim code = false) :
    preprocess_code code = code ∧ detect_rhino_features code = [] ∧
    (∀ src : List Char, src ≠ [] →
      (preprocess_code src = rhinoShimCode ++ rhinoStages src ↔
        needsShim (rhinoStages src) = true)) := by
  have hshim : rhinoShimCode ≠ [] := by decide
  have hstages : rhinoStages code = code := by
    unfold rhinoStages
    rw [subst_id _ _ (searchAny_eq_false _ _ h1), subst_id _ _ (searchAny_eq_false _ _ h2),
      subst_id _ _ (searchAny_eq_false _ _ h3), subst_id _ _ (searchAny_eq_false _ _ h4),
      subst_id _ _ (searchAny_eq_false _ _ h5), subst_id _ _ (searchAny_eq_false _ _ h6)]
  refine ⟨?_, ?_, ?_⟩
  · unfold preprocess_code
    by_cases hc : code = []
    · rw [if_pos hc]
    · rw [if_neg hc, hstages]
      unfold addCompatibilityShims
      rw [h7]
      rfl
  · unfold detect_rhino_features
    rw [h1, h2, h3, h4, h5, h6]
    rfl
  · intro src hsrc
    unfold preprocess_code
    rw [if_neg hsrc]
    unfold addCompatibilityShims
    by_cases ht : needsShim (rhinoStages src)
    · rw [if_pos ht, eq_self_iff_true, true_iff]
      exact ht
    · rw [if_neg ht]
      constructor
      · intro heq
        have hlen := congrArg List.length heq
        rw [List.length_append] at hlen
        have : rhinoShimCode.length = 0 := by omega
        exact absurd (List.length_eq_zero.mp this) hshim
      · intro hc
        rw [hc] at ht
        exact absurd rfl ht

/-- Witness for the amended C6: a source with no legacy constructs and
no trigger substrings passes through unchanged and is reported
feature-free. -/
theorem rhino_preprocess_no_constructs_witness :
    preprocess_code "var x = 1;".toList = "var x = 1;".toList ∧
    detect_rhino_features "var x = 1;".toList = [] :=
  ⟨(rhino_preprocess_no_constructs "var x = 1;".toList (by decide) (by decide) (by decide)
      (by decide) (by decide) (by decide) (by decide)).1,
   (rhino_preprocess_no_constructs "var x = 1;".toList (by decide) (by decide) (by decide)
      (by decide) (by decide) (by decide) (by decide)).2.1⟩

/-! ## Supporting lemmas: registry dictionary -/

theorem dictRemove_lookup (st : List (List Char × EngineState)) (k : List Char) :
    (dictRemove st k).lookup k = none := by
  induction st with
  | nil => rfl
  | cons kv t ih =>
    obtain ⟨k1, v1⟩ := kv
    unfold dictRemove at ih ⊢
    rw [List.filter_cons]
    by_cases hk : k1 = k
    · rw [if_neg (by simp [hk])]
      exact ih
    · rw [if_pos (by simp [hk])]
      rw [List.lookup_cons]
      have hne : (k == k1) = false := by
        rw [beq_eq_false_iff_ne]
        exact fun hc => hk hc.symm
      simp only [hne]
      exact ih

theorem dictRemove_keys_not_mem (st : List (List Char × EngineState)) (k : List Char) :
    k ∉ (dictRemove st k).map Prod.fst := by
  intro hmem
  obtain ⟨kv, hkv, hfst⟩ := List.mem_map.mp hmem
  have := List.of_mem_filter hkv
  simp [hfst] at this

theorem dictRemove_keys_nodup (st : List (List Char × EngineState)) (k : List Char)
    (h : (st.map Prod.fst).Nodup) : ((dictRemove st k).map Prod.fst).Nodup :=
  ((List.filter_sublist st).map Prod.fst).nodup h

/-! ## Claim theorems C7, C8, C9 -/

/-- **C7.** `PluginEngine.load` is idempotent and atomic on failure:
when already loaded it returns success immediately, leaves the state
untouched and does not re-evaluate the plugin source (third
component, "body ran", is `false`); when any exception is raised in
the load body, the error is recorded, `_cleanup` tears down the
partial state, `False` is returned, and the engine remains unloaded
(`is_loaded` is `false`). -/
theorem load_idempotent_atomic :
    (∀ (st : EngineState) (body : Except (List Char) Unit),
      st.loaded = true → load st body = (st, true, false)) ∧
    (∀ (st : EngineState) (e : List Char), st.loaded = false →
      load st (Except.error e) = (⟨false, false, some e⟩, false, true) ∧
      is_loaded (load st (Except.error e)).1 = false) := by
  constructor
  · intro st body h
    simp [load, h]
  · intro st e h
    constructor
    · simp [load, h, cleanup]
    · simp [load, h, cleanup, is_loaded]

/-- Witness for C7: a loaded engine ignores a failing body and stays
loaded; a fresh engine fed a failing body ends unloaded with the
error recorded. -/
theorem load_idempotent_atomic_witness :
    load ⟨true, true, none⟩ (Except.error "boom".toList) = (⟨true, true, none⟩, true, false) ∧
    load initialEngineState (Except.error "boom".toList) =
      (⟨false, false, some "boom".toList⟩, false, true) :=
  ⟨load_idempotent_atomic.1 ⟨true, true, none⟩ (Except.error "boom".toList) rfl,
   (load_idempotent_atomic.2 initialEngineState "boom".toList rfl).1⟩

/-- **C8.** `PluginManager.register`: on load failure nothing remains
registered under the identifier (a pre-existing instance was fully
unregistered first) and `False` is returned; the registry never holds
two entries for one identifier (key distinctness is preserved by
every `register`); on load success the new engine is registered under
the identifier. -/
theorem register_unique_instance (st : List (List Char × EngineState))
    (pid : List Char) (e : List Char) (body : Except (List Char) Unit)
    (hpid : pid ≠ []) (hn : (st.map Prod.fst).Nodup) :
    ((register st pid (Except.error e)).1.lookup pid = none ∧
      (register st pid (Except.error e)).2 = false) ∧
    (((register st pid body).1.map Prod.fst).Nodup) ∧
    ((register st pid (Except.ok ())).2 = true ∧
      (register st pid (Except.ok ())).1.lookup pid = some ⟨true, true, none⟩) := by
  have hst1_lookup :
      (if (st.lookup pid).isSome then (unregisterNoLock st pid).1 else st).lookup pid =
        none := by
    cases hc : st.lookup pid with
    | none => simp [hc]
    | some v => simp [hc, unregisterNoLock, dictRemove_lookup]
  have hst1_nodup :
      (((if (st.lookup pid).isSome then (unregisterNoLock st pid).1 else st)).map
        Prod.fst).Nodup := by
    cases hc : st.lookup pid with
    | none => simpa [hc] using hn
    | some v => simp [hc, unregisterNoLock, dictRemove_keys_nodup st pid hn]
  have hloadFail : load initialEngineState (Except.error e) =
      (⟨false, false, some e⟩, false, true) := rfl
  have hloadOk : load initialEngineState (Except.ok ()) =
      (⟨true, true, none⟩, true, true) := rfl
  refine ⟨?_, ?_, ?_⟩
  · unfold register
    rw [if_neg hpid, hloadFail]
    exact ⟨hst1_lookup, rfl⟩
  · unfold register
    rw [if_neg hpid]
    cases hb : (load initialEngineState body).2.1 with
    | false =>
      simp only [Bool.false_eq_true, if_false]
      exact hst1_nodup
    | true =>
      simp only [if_true]
      unfold dictInsert
      simp only [List.map_cons]
      exact List.Nodup.cons (dictRemove_keys_not_mem _ pid)
        (dictRemove_keys_nodup _ pid hst1_nodup)
  · unfold register
    rw [if_neg hpid, hloadOk]
    dsimp only
    rw [if_pos rfl]
    refine ⟨rfl, ?_⟩
    unfold dictInsert
    rw [List.lookup_cons]
    simp

/-- Witness for C8: re-registering `p1` with a failing load returns
`False` and leaves no `p1` instance; a successful load replaces the
old instance. -/
theorem register_unique_instance_witness :
    (register [("p1".toList, ⟨true, true, none⟩)] "p1".toList
        (Except.error "boom".toList)).1.lookup "p1".toList = none ∧
    (register [("p1".toList, ⟨true, true, none⟩)] "p1".toList
        (Except.error "boom".toList)).2 = false ∧
    (register [("p1".toList, ⟨true, true, none⟩)] "p1".toList
        (Except.ok ())).1.lookup "p1".toList = some ⟨true, true, none⟩ :=
  ⟨(register_unique_instance [("p1".toList, ⟨true, true, none⟩)] "p1".toList
      "boom".toList (Except.ok ()) (by decide) (by decide)).1.1,
   (register_unique_instance [("p1".toList, ⟨true, true, none⟩)] "p1".toList
      "boom".toList (Except.ok ()) (by decide) (by decide)).1.2,
   (register_unique_instance [("p1".toList, ⟨true, true, none⟩)] "p1".toList
      "boom".toList (Except.ok ()) (by decide) (by decide)).2.2.2⟩

/-- **C9.** Every `get_audio` result satisfies: exactly one of
{populated audio, error} holds, and `is_success` is exactly "audio
present and error absent"; when the engine is not loaded the
"插件未加载" error result is returned immediately; an exception
thrown by the guest synthesis entry point (or anywhere in the
synchronous body) becomes the error variant.  The function is total —
no exception reaches the caller. -/
theorem get_audio_exactly_one (loaded : Bool)
    (outcome : Except (List Char) GuestAudioJson) (e : List Char) :
    (((get_audio loaded outcome).audio.isSome = true ∧
        (get_audio loaded outcome).error = none) ∨
      ((get_audio loaded outcome).audio = none ∧
        (get_audio loaded outcome).error.isSome = true)) ∧
    ((get_audio loaded outcome).is_success = true ↔
      ((get_audio loaded outcome).audio.isSome = true ∧
        (get_audio loaded outcome).error = none)) ∧
    (get_audio false outcome = errorResult "插件未加载".toList) ∧
    (get_audio true (Except.error e) = errorResult e) := by
  have hxor : ∀ r : PluginAudioResult,
      (r.audio.isSome = true ∧ r.error = none) ∨ (r.audio = none ∧ r.error.isSome = true) →
      (r.is_success = true ↔ (r.audio.isSome = true ∧ r.error = none)) := by
    intro r h
    unfold PluginAudioResult.is_success
    rcases h with ⟨h1, h2⟩ | ⟨h1, h2⟩ <;> simp [h1, h2]
  have hmain : ((get_audio loaded outcome).audio.isSome = true ∧
      (get_audio loaded outcome).error = none) ∨
      ((get_audio loaded outcome).audio = none ∧
        (get_audio loaded outcome).error.isSome = true) := by
    cases loaded with
    | false => right; simp [get_audio, errorResult]
    | true =>
      cases outcome with
      | error e' => right; simp [get_audio, get_audio_sync, errorResult]
      | ok result =>
        obtain ⟨rerr, raudio, rct⟩ := result
        cases rerr with
        | some err => right; simp [get_audio, get_audio_sync, errorResult]
        | none =>
          cases raudio with
          | none => right; simp [get_audio, get_audio_sync, errorResult]
          | some b64 =>
            by_cases hb : b64 = []
            · right
              simp [get_audio, get_audio_sync, hb, errorResult]
            · cases hd : base64Decode b64 with
              | none => right; simp [get_audio, get_audio_sync, hb, hd, errorResult]
              | some bytes => left; simp [get_audio, get_audio_sync, hb, hd]
  refine ⟨hmain, hxor _ hmain, by simp [get_audio], by simp [get_audio, get_audio_sync]⟩

/-- Witness for C9: unloaded engines and guest exceptions both give
pure error results, a valid base64 payload gives a pure audio result.
-/
theorem get_audio_exactly_one_witness :
    (get_audio false (Except.ok ⟨none, none, none⟩) = errorResult "插件未加载".toList) ∧
    (get_audio true (Except.error "guest blew up".toList) =
      errorResult "guest blew up".toList) ∧
    ((get_audio true
      (Except.ok ⟨none, some ("UlJJRg==".toList.map Char.toNat), none⟩)).is_success
      = true) := by
  refine ⟨(get_audio_exactly_one false (Except.ok ⟨none, none, none⟩)
      "x".toList).2.2.1, ?_, ?_⟩
  · exact (get_audio_exactly_one true (Except.ok ⟨none, none, none⟩)
      "guest blew up".toList).2.2.2
  · have h := (get_audio_exactly_one true
      (Except.ok ⟨none, some ("UlJJRg==".toList.map Char.toNat), none⟩) "x".toList).2.1
    exact h.mpr (by constructor <;> decide)

end TtsPlugins
